import Mathlib

/-!
Verification development for the `sxhtml` HTML serializer of the sxwebs
repository (files `sxhtml/printer.go` and `sxhtml/sxhtml.go`).

Go strings are byte sequences; they are modelled as `List Nat` with each
element a byte value (0–255).  The sx object model (package `t73f.de/r/sx`,
an external collaborator consumed through the read-only tree contract of the
spec) is modelled by the inductive type `Obj`.  The output sink (`io.Writer`)
is modelled by `Sink`: for the k-th write call it yields the number of bytes
accepted and an optional error.
-/

/-- Bytes of a Go string. -/
abbrev Str := List Nat

/-- Decodes a list of characters (ASCII) into the byte string it denotes. -/
def bytes (cs : List Char) : Str := cs.map Char.toNat

/-- Model of the sx object graph: strings, numbers, symbols, the empty
list (`sx.Nil`, a nil `*sx.Pair`) and cons pairs. -/
inductive Obj where
  | str : Str → Obj
  | num : Int → Obj
  | sym : Str → Obj
  | nil : Obj
  | pair : Obj → Obj → Obj
deriving DecidableEq, Repr

namespace Obj

/-- Model of `sx.Pair.Car` (the car of the empty list is `Nil`). -/
def car : Obj → Obj
  | .pair a _ => a
  | _ => .nil

/-- Model of `sx.Pair.Cdr` (the cdr of the empty list is `Nil`). -/
def cdr : Obj → Obj
  | .pair _ b => b
  | _ => .nil

/-- Model of `sx.GetPair` succeeding: the object is a `*sx.Pair`, which is
either a cons cell or the nil pair. -/
def isPairO : Obj → Bool
  | .pair _ _ => true
  | .nil => true
  | _ => false

/-- Model of `sx.IsNil`. -/
def isNilO : Obj → Bool
  | .nil => true
  | _ => false

/-- Model of `sx.GetSymbol`. -/
def getSym : Obj → Option Str
  | .sym s => some s
  | _ => none

/-- Model of `sx.GetString`. -/
def getStr : Obj → Option Str
  | .str s => some s
  | _ => none

/-- Elements yielded by `sx.Pair.Values`: the cars of the chain of cons
cells, stopping at the first cdr that is not a cons cell. -/
def values : Obj → List Obj
  | .pair a b => a :: values b
  | _ => []

end Obj

/-- Decimal digits (ASCII) of a natural number. -/
def natDecimal (n : Nat) : Str :=
  if h : n < 10 then [48 + n]
  else natDecimal (n / 10) ++ [48 + n % 10]
decreasing_by exact Nat.div_lt_self (by omega) (by omega)

/-- Decimal rendering of an integer, as produced by the sx number methods
`String`/`GoString` (modelled sx boundary). -/
def intDecimal : Int → Str
  | .ofNat n => natDecimal n
  | .negSucc n => 45 :: natDecimal (n + 1)

/-- Textual rendering `sx.Object.GoString` of an object (modelled sx
boundary; for a string it is the raw value, per the spec scenario
`(@@ "esc -->")` → `<!-- esc -&#45;> -->`). -/
def goString : Obj → Str
  | .str s => s
  | .num n => intDecimal n
  | .sym s => s
  | .nil => [40, 41]
  | .pair a b => 40 :: (goString a ++ goStringTail b)
where
  /-- Rendering of the tail of a list, closing the parenthesis. -/
  goStringTail : Obj → Str
  | .nil => [41]
  | .pair a b => 32 :: (goString a ++ goStringTail b)
  | o => 32 :: 46 :: 32 :: (goString o ++ [41])

/-- The output sink (`io.Writer`): for the k-th write call, `accept k s` is
the number of bytes of the payload `s` the sink accepts, `errAt k` the
error (if any) returned by that call.  Errors are modelled as numeric
codes. -/
structure Sink where
  accept : Nat → Str → Nat
  errAt : Nat → Option Nat

/-- A sink that accepts everything and never fails. -/
def okSink : Sink := ⟨fun _ s => s.length, fun _ => none⟩

/-- State of `printer` (sxhtml/printer.go): number of write calls issued so
far, bytes that reached the sink, the `length` counter and the sticky
`err` field. -/
structure Printer where
  calls : Nat
  out : Str
  length : Nat
  err : Option Nat
deriving DecidableEq, Repr

/-- The fresh printer a render entry point starts from. -/
def pr0 : Printer := ⟨0, [], 0, none⟩

namespace Printer

/-- Model of `printer.printString`: if no error is recorded, issue one write
call for `s`, accumulate the reported length and record the returned
error. -/
def printString (sk : Sink) (s : Str) (pr : Printer) : Printer :=
  match pr.err with
  | some _ => pr
  | none =>
    let l := sk.accept pr.calls s
    { calls := pr.calls + 1
      out := pr.out ++ s.take l
      length := pr.length + l
      err := sk.errAt pr.calls }

/-- Loop body of `printer.printStrings`: write each string in turn, stopping
at the first error. -/
def printStringsLoop (sk : Sink) : List Str → Printer → Printer
  | [], pr => pr
  | s :: rest, pr =>
    let l := sk.accept pr.calls s
    let e := sk.errAt pr.calls
    let pr' : Printer :=
      { calls := pr.calls + 1
        out := pr.out ++ s.take l
        length := pr.length + l
        err := e }
    match e with
    | some _ => pr'
    | none => printStringsLoop sk rest pr'

/-- Model of `printer.printStrings`. -/
def printStrings (sk : Sink) (sl : List Str) (pr : Printer) : Printer :=
  match pr.err with
  | some _ => pr
  | none => printStringsLoop sk sl pr

end Printer

/-- Per-byte replacement of `htmlEscaper` (`&` `<` `>` `"` and NUL; the NUL
replacement character U+FFFD is the UTF-8 bytes ef bf bd). -/
def htmlEscapeByte (c : Nat) : Str :=
  if c = 38 then [38, 97, 109, 112, 59]
  else if c = 60 then [38, 108, 116, 59]
  else if c = 62 then [38, 103, 116, 59]
  else if c = 34 then [38, 113, 117, 111, 116, 59]
  else if c = 0 then [239, 191, 189]
  else [c]

/-- Result of `htmlEscaper.WriteString`s replacement on a whole string. -/
def htmlEscapeStr (s : Str) : Str := s.flatMap htmlEscapeByte

/-- Leftmost, non-overlapping replacement of `--` by `-&#45;`, the behavior
of `commentEscaper` (`strings.NewReplacer("--", "-&#45;")`). -/
def commentEscape : Str → Str
  | [] => []
  | [c] => [c]
  | c1 :: c2 :: rest =>
    if c1 = 45 ∧ c2 = 45 then [45, 38, 35, 52, 53, 59] ++ commentEscape rest
    else c1 :: commentEscape (c2 :: rest)

namespace Printer

/-- Model of `printer.printHTML`: the escaped text is written to the sink
(the Go `Replacer.WriteString` may split it into several chunks; at the
error granularity of this model it is one write at the sink boundary). -/
def printHTML (sk : Sink) (s : Str) (pr : Printer) : Printer :=
  match pr.err with
  | some _ => pr
  | none => pr.printString sk (htmlEscapeStr s)

/-- Model of `printer.printComment`. -/
def printComment (sk : Sink) (s : Str) (pr : Printer) : Printer :=
  match pr.err with
  | some _ => pr
  | none => pr.printString sk (commentEscape s)

end Printer

/-- Go slice expression `s[a:b]` of a byte string. -/
def goSlice (s : Str) (a b : Nat) : Str := (s.drop a).take (b - a)

namespace Printer

/-- Loop of `printer.printAttributeValue` over the byte positions of `s`;
`last` is the start of the pending unescaped chunk. -/
def printAttrValLoop (sk : Sink) (s : Str) (i last : Nat) (pr : Printer) :
    Printer :=
  if _h : i < s.length then
    let c := s.getD i 0
    if c = 0 then
      printAttrValLoop sk s (i + 1) (i + 1)
        (pr.printStrings sk [goSlice s last i, [239, 191, 189]])
    else if c = 34 then
      printAttrValLoop sk s (i + 1) (i + 1)
        (pr.printStrings sk [goSlice s last i, [38, 113, 117, 111, 116, 59]])
    else if c = 38 then
      printAttrValLoop sk s (i + 1) (i + 1)
        (pr.printStrings sk [goSlice s last i, [38, 97, 109, 112, 59]])
    else
      printAttrValLoop sk s (i + 1) last pr
  else
    pr.printString sk (goSlice s last s.length)
termination_by s.length - i

/-- Model of `printer.printAttributeValue`. -/
def printAttributeValue (sk : Sink) (s : Str) (pr : Printer) : Printer :=
  printAttrValLoop sk s 0 0 pr

end Printer

/-- Model of `isHex` (printer.go). -/
def isHex (ch : Nat) : Bool :=
  (48 ≤ ch && ch ≤ 57) || (97 ≤ ch && ch ≤ 102) || (65 ≤ ch && ch ≤ 70)

/-- The safe delimiter bytes kept by `urlEscape`
(`! # $ & * + , / : ; = ? @ [ ]`). -/
def isSafeDelim (ch : Nat) : Bool :=
  ch = 33 || ch = 35 || ch = 36 || ch = 38 || ch = 42 || ch = 43 || ch = 44 ||
  ch = 47 || ch = 58 || ch = 59 || ch = 61 || ch = 63 || ch = 64 || ch = 91 ||
  ch = 93

/-- The unreserved punctuation bytes kept by `urlEscape` (`- . _ ~`). -/
def isUnresPunct (ch : Nat) : Bool :=
  ch = 45 || ch = 46 || ch = 95 || ch = 126

/-- Letters and digits, kept by the default case of `urlEscape`. -/
def isAlnum (ch : Nat) : Bool :=
  (97 ≤ ch && ch ≤ 122) || (48 ≤ ch && ch ≤ 57) || (65 ≤ ch && ch ≤ 90)

/-- The lower-case hex digit for a value below 16. -/
def hexDigit (d : Nat) : Nat := if d < 10 then 48 + d else 87 + d

/-- The output of `fmt.Fprintf(&sb, a percent and 02x, ch)` for a byte `ch`:
a `%` followed by two lower-case hex digits.  `ch` is a byte (below 256),
so `ch / 16 % 16 = ch / 16`; the extra `% 16` merely keeps `hexDigit`
within its domain on the `Nat` model. -/
def pctEnc (ch : Nat) : Str := [37, hexDigit (ch / 16 % 16), hexDigit (ch % 16)]

/-- The keep-condition of the switch in `urlEscape` at byte position `i`:
safe delimiters, unreserved punctuation, a `%` opening a well-formed
`%XX` escape (`i+2 < n` and two hex digits follow), or letters/digits. -/
def urlKeep (s : Str) (i : Nat) : Bool :=
  let ch := s.getD i 0
  if isSafeDelim ch then true
  else if isUnresPunct ch then true
  else if ch = 37 then
    decide (i + 2 < s.length) && isHex (s.getD (i + 1) 0) &&
      isHex (s.getD (i + 2) 0)
  else isAlnum ch

/-- Loop of `urlEscape` (printer.go): `i` is the scan position, `written`
the end of the part already copied into the builder `sb`; kept bytes are
deferred and copied as chunks, and if nothing was escaped the input is
returned as-is. -/
def urlEscapeLoop (s : Str) (i written : Nat) (sb : Str) : Str :=
  if _h : i < s.length then
    if urlKeep s i then urlEscapeLoop s (i + 1) written sb
    else urlEscapeLoop s (i + 1) (i + 1)
      (sb ++ goSlice s written i ++ pctEnc (s.getD i 0))
  else if written = 0 then s
  else sb ++ goSlice s written s.length
termination_by s.length - i

/-- Model of `urlEscape` (printer.go). -/
def urlEscape (s : Str) : Str := urlEscapeLoop s 0 0 []

/-- Two hex digits open the remainder of the string. -/
def twoHex : Str → Bool
  | h1 :: h2 :: _ => isHex h1 && isHex h2
  | _ => false

/-- URL escaping as worded by the spec (§4.2): percent-encode every byte
except the unreserved set (letters, digits, `-._~`) and the safe delimiter
set, passing an existing well-formed `%XX` escape through unescaped;
output is lower-case two-digit hex. -/
def urlEscapeSpec : Str → Str
  | [] => []
  | c :: rest =>
    if isAlnum c || isUnresPunct c || isSafeDelim c then c :: urlEscapeSpec rest
    else if c = 37 && twoHex rest then c :: urlEscapeSpec rest
    else pctEnc c ++ urlEscapeSpec rest

/-- Attribute escaping categories (`attrType` in sxhtml.go). -/
inductive AttrType where
  | plain | url | css | js
deriving DecidableEq, Repr

/-- The URL-valued attribute names (`urlAttrs` in sxhtml.go). -/
def urlAttrs : List Str :=
  [bytes ['a','c','t','i','o','n'], bytes ['c','i','t','e'],
   bytes ['d','a','t','a'], bytes ['f','o','r','m','a','c','t','i','o','n'],
   bytes ['h','r','e','f'], bytes ['i','t','e','m','i','d'],
   bytes ['i','t','e','m','p','r','o','p'],
   bytes ['i','t','e','m','t','y','p','e'], bytes ['p','i','n','g'],
   bytes ['p','o','s','t','e','r'], bytes ['s','r','c']]

/-- The always-break tags (`allNLTags` in sxhtml.go). -/
def allNLTags : List Str :=
  [bytes ['h','e','a','d'], bytes ['l','i','n','k'], bytes ['m','e','t','a'],
   bytes ['t','i','t','l','e'], bytes ['d','i','v']]

/-- The newline-triggering tags (`nlTags` in sxhtml.go), including the CDATA
directive name `@C`. -/
def nlTags : List Str :=
  [bytes ['@','C'],
   bytes ['h','e','a','d'], bytes ['l','i','n','k'], bytes ['m','e','t','a'],
   bytes ['t','i','t','l','e'], bytes ['s','c','r','i','p','t'],
   bytes ['b','o','d','y'], bytes ['a','r','t','i','c','l','e'],
   bytes ['d','e','t','a','i','l','s'], bytes ['d','i','v'],
   bytes ['h','e','a','d','e','r'], bytes ['f','o','o','t','e','r'],
   bytes ['f','o','r','m'], bytes ['m','a','i','n'],
   bytes ['s','u','m','m','a','r','y'],
   bytes ['h','1'], bytes ['h','2'], bytes ['h','3'], bytes ['h','4'],
   bytes ['h','5'], bytes ['h','6'],
   bytes ['l','i'], bytes ['o','l'], bytes ['u','l'], bytes ['d','d'],
   bytes ['d','t'], bytes ['d','l'],
   bytes ['t','a','b','l','e'], bytes ['t','h','e','a','d'],
   bytes ['t','b','o','d','y'], bytes ['t','r'],
   bytes ['s','e','c','t','i','o','n'], bytes ['i','n','p','u','t']]

/-- The elements that may be ignored when empty (`ignoreEmptyTags`). -/
def ignoreEmptyTags : List Str :=
  [bytes ['d','i','v'], bytes ['s','p','a','n'], bytes ['c','o','d','e'],
   bytes ['k','b','d'], bytes ['p'], bytes ['s','a','m','p']]

/-- The HTML void elements. -/
def voidTags : List Str :=
  [bytes ['a','r','e','a'], bytes ['b','a','s','e'], bytes ['b','r'],
   bytes ['c','o','l'], bytes ['e','m','b','e','d'], bytes ['h','r'],
   bytes ['i','m','g'], bytes ['i','n','p','u','t'], bytes ['l','i','n','k'],
   bytes ['m','e','t','a'], bytes ['s','o','u','r','c','e'],
   bytes ['t','r','a','c','k'], bytes ['w','b','r']]

/-- Modelled from the spec: `tags.IsVoid` lives in the external package
`t73f.de/r/webs/htmls/tags`, whose source is not part of this repository;
the spec (§4.6) fixes the void-element set as area, base, br, col, embed,
hr, img, input, link, meta, source, track, wbr. -/
def tagsIsVoid (name : Str) : Bool := name ∈ voidTags

/-- Whether `pat` occurs as a substring (`strings.Contains`). -/
def strContains : Str → Str → Bool
  | [], pat => pat.isEmpty
  | s@(_ :: t), pat => if pat.isPrefixOf s then true else strContains t pat

/-- Model of `strings.CutPrefix s "data-"`: the name with a `data-` marker
stripped, when present. -/
def cutData (s : Str) : Option Str :=
  let d : Str := bytes ['d','a','t','a','-']
  if d.isPrefixOf s then some (s.drop d.length) else none

/-- Model of `strings.Cut name ":"`: the parts before and after the first
colon, when one is present. -/
def cutColon : Str → Option (Str × Str)
  | [] => none
  | c :: t =>
    if c = 58 then some ([], t)
    else (cutColon t).map (fun p => (c :: p.1, p.2))

/-- The classification core of `getAttributeType`, applied to the
(possibly prefix-stripped) attribute name. -/
def attrTypeCore (name : Str) : AttrType :=
  if name ∈ urlAttrs then .url
  else if name = bytes ['s','t','y','l','e'] then .css
  else if (bytes ['o','n']).isPrefixOf name then .js
  else if strContains name (bytes ['u','r','l']) ||
          strContains name (bytes ['u','r','i']) ||
          strContains name (bytes ['s','r','c']) then .url
  else .plain

/-- Model of `getAttributeType` (sxhtml.go); for the symbols in play,
`sym.String()` and `sym.GetValue()` are both the symbol name. -/
def getAttributeType (n : Str) : AttrType :=
  match cutData n with
  | some dataName => attrTypeCore dataName
  | none =>
    match cutColon n with
    | some (pre, rest) =>
      if pre = bytes ['x','m','l','n','s'] then .url else attrTypeCore rest
    | none => attrTypeCore n

/-- Model of `getAttributeValue` (sxhtml.go). -/
def getAttributeValue (n : Str) (value : Str) : Str :=
  match getAttributeType n with
  | .url => urlEscape value
  | _ => value

/-- An ASCII whitespace byte.  Go's `strings.TrimSpace` also strips a few
multi-byte Unicode spaces; the serializer claims only involve ASCII
whitespace, so the boundary model is byte-level. -/
def isSpaceB (c : Nat) : Bool :=
  c = 32 || c = 9 || c = 10 || c = 11 || c = 12 || c = 13

/-- Model of `strings.TrimSpace` at the byte level. -/
def trimSpace (s : Str) : Str :=
  ((s.dropWhile isSpaceB).reverse.dropWhile isSpaceB).reverse

/-- Value coercion of an attribute entry (the `switch o := obj.(type)` in
`writeAttributes`): strings verbatim, symbols by name, numbers by decimal
text, anything else is dropped. -/
def coerceAttr : Obj → Option Str
  | .str s => some s
  | .sym s => some s
  | .num n => some (intDecimal n)
  | _ => none

/-- State built by the entry loop of `writeAttributes`: the keys already
seen (`found`), the keys bound as bare boolean attributes (`empty`), and
the key/value map `a`.  The Go map `a` is only ever assigned once per key
(guarded by `found`), read back by key, and enumerated for sorting, so an
insertion-ordered association list models it faithfully. -/
structure AttrState where
  found : List Str
  empty : List Str
  a : List (Str × Str)
deriving DecidableEq, Repr

/-- One iteration of the entry loop of `writeAttributes`. -/
def attrStep (st : AttrState) (val : Obj) : AttrState :=
  if val.isPairO then
    match (Obj.car val).getSym with
    | none => st
    | some key =>
      if key ∈ st.found then st
      else
        let found' := st.found ++ [key]
        if (Obj.cdr val).isNilO then
          { st with found := found', a := st.a ++ [(key, [])],
                    empty := st.empty ++ [key] }
        else
          let obj :=
            if (Obj.cdr val).isPairO then (Obj.cdr val).car else Obj.cdr val
          match coerceAttr obj with
          | none => { st with found := found' }
          | some s =>
            { st with found := found',
                      a := st.a ++ [(key, trimSpace (getAttributeValue key s))] }
  else st

/-- The attribute state after the whole entry loop. -/
def procAttrs (vals : List Obj) : AttrState := vals.foldl attrStep ⟨[], [], []⟩

/-- Lookup in the association list modelling the Go map `a`. -/
def lookupA : List (Str × Str) → Str → Str
  | [], _ => []
  | (k, v) :: t, key => if k = key then v else lookupA t key

/-- The sorted surviving keys (`sort.Strings(keys)`); `≤` on `List ℕ` is
the bytewise lexicographic order Go uses on strings, and the keys are
pairwise distinct, so any correct sort yields this list. -/
def sortedKeys (st : AttrState) : List Str :=
  List.insertionSort (· ≤ ·) (st.a.map Prod.fst)

/-- The emission loop at the end of `writeAttributes`. -/
def writeAttrsOut (sk : Sink) (st : AttrState) (pr : Printer) : Printer :=
  (sortedKeys st).foldl
    (fun pr key =>
      let pr := pr.printStrings sk [[32], key]
      if key ∈ st.empty then pr
      else
        ((pr.printString sk [61, 34]).printAttributeValue sk
          (lookupA st.a key)).printString sk [34])
    pr

/-- Model of `myEncoder.writeAttributes`; it only touches the printer. -/
def writeAttributes (sk : Sink) (attrs : Obj) (pr : Printer) : Printer :=
  writeAttrsOut sk (procAttrs attrs.values) pr

/-- Model of `getAttributes` (sxhtml.go): the head of the element list is
taken as the attribute list when it is a non-nil pair whose own car is a
pair (or the nil pair). -/
def getAttributes (lst : Obj) : Option Obj :=
  match lst.car with
  | .pair c d => if c.isPairO then some (.pair c d) else none
  | _ => none

/-- Model of `ignoreEmptyStrings` (sxhtml.go): the first cell whose car is
not an empty string, or `none` when every cell holds an empty string. -/
def ignoreEmptyStrings : Obj → Option Obj
  | .pair a b =>
    match a.getStr with
    | some s => if s = [] then ignoreEmptyStrings b else some (.pair a b)
    | none => some (.pair a b)
  | _ => none

/-- Model of `sx.Pair.Tail`: the cdr when it is a pair (or nil pair),
otherwise the empty list. -/
def Obj.tail (o : Obj) : Obj :=
  if (Obj.cdr o).isPairO then Obj.cdr o else .nil

/-- State of `myEncoder`: the printer plus the `lastWasTag` flag.  The
generator configuration (`withNewline`) is the Bool parameter `g` of the
encoding functions. -/
structure Enc where
  pr : Printer
  lastWasTag : Bool
deriving DecidableEq, Repr

/-- Model of `myEncoder.writeNoEscape`; it only touches the printer. -/
def writeNoEscapeP (sk : Sink) (elems : Obj) (pr : Printer) : Printer :=
  elems.values.foldl
    (fun pr obj =>
      match obj.getStr with
      | some s => pr.printString sk s
      | none => pr)
    pr

/-- Model of `myEncoder.writeCDATA`. -/
def writeCDATAP (sk : Sink) (elems : Obj) (pr : Printer) : Printer :=
  (writeNoEscapeP sk elems
      (pr.printString sk (bytes ['<','!','[','C','D','A','T','A','[']))).printString
    sk (bytes [']',']','>'])

/-- Model of `myEncoder.writeComment` (inline comments). -/
def writeCommentP (sk : Sink) (elems : Obj) (pr : Printer) : Printer :=
  (elems.values.foldl
      (fun pr obj => (pr.printString sk [32]).printComment sk (goString obj))
      (pr.printString sk (bytes ['<','!','-','-']))).printString sk
    (bytes [' ','-','-','>'])

/-- Model of `myEncoder.writeCommentML` (block comments). -/
def writeCommentMLP (sk : Sink) (elems : Obj) (pr : Printer) : Printer :=
  (elems.values.foldl
      (fun pr obj => (pr.printString sk [10]).printComment sk (goString obj))
      (pr.printString sk (bytes ['<','!','-','-']))).printString sk
    (bytes ['\n','-','-','>','\n'])

/-- Size bound used for the termination of the encoder. -/
theorem Obj.sizeOf_tail_pair (a b : Obj) :
    sizeOf (Obj.tail (Obj.pair a b)) ≤ sizeOf b := by
  cases b <;> simp [Obj.tail, Obj.cdr, Obj.isPairO] <;> try omega

/-- Size bound used for the termination of the encoder. -/
theorem Obj.sizeOf_tail_le (o : Obj) : sizeOf (Obj.tail o) ≤ sizeOf o := by
  cases o with
  | pair a b =>
    calc sizeOf (Obj.tail (Obj.pair a b)) ≤ sizeOf b := Obj.sizeOf_tail_pair a b
    _ ≤ sizeOf (Obj.pair a b) := by simp
  | _ => simp [Obj.tail, Obj.cdr, Obj.isPairO]

/-- Lexicographic helper for the termination proofs. -/
theorem lexHelp {a c b d : Nat} (h1 : a ≤ c) (h2 : b < d) :
    Prod.Lex (· < ·) (· < ·) (a, b) (c, d) := by
  rcases Nat.lt_or_ge a c with h | h
  · exact Prod.Lex.left _ _ h
  · have he : a = c := by omega
    subst he
    exact Prod.Lex.right _ h2

mutual

/-- Model of `myEncoder.generate` (sxhtml.go): dispatch over the object
kinds and the directive symbols. -/
def generate (g : Bool) (sk : Sink) : Obj → Enc → Enc
  | .str s, st => { st with pr := st.pr.printHTML sk s, lastWasTag := false }
  | .num n, st =>
    { st with pr := st.pr.printHTML sk (intDecimal n), lastWasTag := false }
  | .sym _, st => { st with lastWasTag := false }
  | .nil, st => { st with lastWasTag := false }
  | .pair h t, st =>
    match h with
    | .sym s =>
      if s.getD 0 0 = 64 then
        if s = bytes ['@','C'] then
          { st with pr := writeCDATAP sk (Obj.tail (Obj.pair h t)) st.pr,
                    lastWasTag := false }
        else if s = bytes ['@','H'] then
          { st with pr := writeNoEscapeP sk (Obj.tail (Obj.pair h t)) st.pr,
                    lastWasTag := false }
        else if s = bytes ['@','@'] then
          { st with pr := writeCommentP sk (Obj.tail (Obj.pair h t)) st.pr,
                    lastWasTag := false }
        else if s = bytes ['@','@','@'] then
          { st with pr := writeCommentMLP sk (Obj.tail (Obj.pair h t)) st.pr,
                    lastWasTag := false }
        else if s = bytes ['@','L'] then
          { generateList g sk (Obj.tail (Obj.pair h t)) st with
              lastWasTag := false }
        else if s = bytes ['@','@','@','@'] then
          { writeDoctype g sk (Obj.tail (Obj.pair h t)) st with
              lastWasTag := false }
        else writeTag g sk s (Obj.tail (Obj.pair h t)) st
      else writeTag g sk s (Obj.tail (Obj.pair h t)) st
    | _ => st
termination_by o _ => (sizeOf o, 3)
decreasing_by
  all_goals simp_wf
  all_goals
    first
    | exact lexHelp (Nat.le_refl _) (by omega)
    | exact Prod.Lex.left _ _ (by omega)
    | exact Prod.Lex.left _ _
        (Nat.lt_of_le_of_lt (Obj.sizeOf_tail_pair _ _) (by omega))
    | exact lexHelp (Obj.sizeOf_tail_le _) (by omega)


/-- Model of `myEncoder.generateList`. -/
def generateList (g : Bool) (sk : Sink) : Obj → Enc → Enc
  | .pair a b, st => generateList g sk b (generate g sk a st)
  | _, st => st
termination_by o _ => (sizeOf o, 0)
decreasing_by
  all_goals simp_wf
  all_goals
    first
    | exact lexHelp (Nat.le_refl _) (by omega)
    | exact Prod.Lex.left _ _ (by omega)
    | exact Prod.Lex.left _ _
        (Nat.lt_of_le_of_lt (Obj.sizeOf_tail_pair _ _) (by omega))
    | exact lexHelp (Obj.sizeOf_tail_le _) (by omega)


/-- Model of `myEncoder.writeDoctype`. -/
def writeDoctype (g : Bool) (sk : Sink) (elems : Obj) (st : Enc) : Enc :=
  generateList g sk elems
    { st with
        pr := st.pr.printString sk
          (bytes ['<','!','D','O','C','T','Y','P','E',' ','h','t','m','l','>','\n']) }
termination_by (sizeOf elems, 1)
decreasing_by
  all_goals simp_wf
  all_goals
    first
    | exact lexHelp (Nat.le_refl _) (by omega)
    | exact Prod.Lex.left _ _ (by omega)
    | exact Prod.Lex.left _ _
        (Nat.lt_of_le_of_lt (Obj.sizeOf_tail_pair _ _) (by omega))
    | exact lexHelp (Obj.sizeOf_tail_le _) (by omega)

/-- Model of `myEncoder.writeTag` (sxhtml.go): the part up to and including
the attribute list; the rest of the method body is `writeTagRest`. -/
def writeTag (g : Bool) (sk : Sink) (symName : Str) (elems : Obj) (st : Enc) :
    Enc :=
  if symName ∈ ignoreEmptyTags ∧ ignoreEmptyStrings elems = none then st
  else
    let withNewline := g && decide (symName ∈ nlTags)
    let pr1 :=
      if withNewline && (!st.lastWasTag || decide (symName ∈ allNLTags)) then
        st.pr.printStrings sk [bytes ['\n','<'], symName]
      else st.pr.printStrings sk [[60], symName]
    match getAttributes elems with
    | some attrs =>
      writeTagRest g sk symName withNewline (Obj.tail elems)
        { pr := writeAttributes sk attrs pr1, lastWasTag := st.lastWasTag }
    | none =>
      writeTagRest g sk symName withNewline elems
        { pr := pr1, lastWasTag := st.lastWasTag }
termination_by (sizeOf elems, 2)
decreasing_by
  all_goals simp_wf
  all_goals
    first
    | exact lexHelp (Nat.le_refl _) (by omega)
    | exact Prod.Lex.left _ _ (by omega)
    | exact Prod.Lex.left _ _
        (Nat.lt_of_le_of_lt (Obj.sizeOf_tail_pair _ _) (by omega))
    | exact lexHelp (Obj.sizeOf_tail_le _) (by omega)


/-- Rest of the body of `myEncoder.writeTag`, from `printString(">")` on:
void-element cut-off, children, closing tag, `lastWasTag` update. -/
def writeTagRest (g : Bool) (sk : Sink) (tagName : Str) (withNewline : Bool)
    (elems : Obj) (st : Enc) : Enc :=
  let pr3 := st.pr.printString sk [62]
  if tagsIsVoid tagName then { pr := pr3, lastWasTag := withNewline }
  else
    let st4 := generateList g sk elems { pr := pr3, lastWasTag := st.lastWasTag }
    let pr5 :=
      if withNewline then
        st4.pr.printStrings sk [[60, 47], tagName, bytes ['>','\n']]
      else st4.pr.printStrings sk [[60, 47], tagName, [62]]
    { pr := pr5, lastWasTag := withNewline }
termination_by (sizeOf elems, 1)
decreasing_by
  all_goals simp_wf
  all_goals
    first
    | exact lexHelp (Nat.le_refl _) (by omega)
    | exact Prod.Lex.left _ _ (by omega)
    | exact Prod.Lex.left _ _
        (Nat.lt_of_le_of_lt (Obj.sizeOf_tail_pair _ _) (by omega))
    | exact lexHelp (Obj.sizeOf_tail_le _) (by omega)

end

/-- Encoder state at the start of `WriteHTML`/`WriteListHTML`
(`lastWasTag: true`). -/
def enc0 : Enc := ⟨pr0, true⟩

/-- The encoder run by `Generator.WriteHTML`. -/
def WriteHTMLEnc (g : Bool) (sk : Sink) (obj : Obj) : Enc :=
  generate g sk obj enc0

/-- Model of `Generator.WriteHTML`: the accumulated length and the sticky
error. -/
def WriteHTML (g : Bool) (sk : Sink) (obj : Obj) : Nat × Option Nat :=
  ((WriteHTMLEnc g sk obj).pr.length, (WriteHTMLEnc g sk obj).pr.err)

/-- The encoder run by `Generator.WriteListHTML`: `generate` over the list
values, which is exactly `generateList`. -/
def WriteListHTMLEnc (g : Bool) (sk : Sink) (lst : Obj) : Enc :=
  generateList g sk lst enc0

/-- Model of `Generator.WriteListHTML`. -/
def WriteListHTML (g : Bool) (sk : Sink) (lst : Obj) : Nat × Option Nat :=
  ((WriteListHTMLEnc g sk lst).pr.length, (WriteListHTMLEnc g sk lst).pr.err)

/-- Bytes produced on a never-failing sink for one object. -/
def renderOut (g : Bool) (obj : Obj) : Str := (WriteHTMLEnc g okSink obj).pr.out

/-! Printer lemmas: behavior on the never-failing sink, behavior once an
error is recorded, and the first-error invariant. -/

/-- First error among the sink responses of calls `0 … k-1`. -/
def firstErr (sk : Sink) : Nat → Option Nat
  | 0 => none
  | k + 1 =>
    match firstErr sk k with
    | some e => some e
    | none => sk.errAt k

/-- The printer error is exactly the first error among the calls issued so
far. -/
def PrInv (sk : Sink) (p : Printer) : Prop := p.err = firstErr sk p.calls

namespace Printer

theorem printString_errSome {p : Printer} {e : Nat} (hp : p.err = some e)
    (sk : Sink) (s : Str) : p.printString sk s = p := by
  simp [Printer.printString, hp]

theorem printStrings_errSome {p : Printer} {e : Nat} (hp : p.err = some e)
    (sk : Sink) (sl : List Str) : p.printStrings sk sl = p := by
  simp [Printer.printStrings, hp]

theorem printHTML_errSome {p : Printer} {e : Nat} (hp : p.err = some e)
    (sk : Sink) (s : Str) : p.printHTML sk s = p := by
  simp [Printer.printHTML, hp]

theorem printComment_errSome {p : Printer} {e : Nat} (hp : p.err = some e)
    (sk : Sink) (s : Str) : p.printComment sk s = p := by
  simp [Printer.printComment, hp]

theorem printAttrValLoop_fuel_errSome (sk : Sink) (s : Str) {e : Nat} :
    ∀ (k i last : Nat) (p : Printer), s.length - i ≤ k → p.err = some e →
      printAttrValLoop sk s i last p = p := by
  intro k
  induction k with
  | zero =>
    intro i last p hk hp
    have hi : ¬ i < s.length := by omega
    rw [printAttrValLoop]
    simp only [hi, dite_false]
    exact printString_errSome hp _ _
  | succ k ih =>
    intro i last p hk hp
    rw [printAttrValLoop]
    by_cases hi : i < s.length
    · simp only [hi, dite_true]
      split
      · rw [printStrings_errSome hp]; exact ih _ _ _ (by omega) hp
      · split
        · rw [printStrings_errSome hp]; exact ih _ _ _ (by omega) hp
        · split
          · rw [printStrings_errSome hp]; exact ih _ _ _ (by omega) hp
          · exact ih _ _ _ (by omega) hp
    · simp only [hi, dite_false]
      exact printString_errSome hp _ _

theorem printAttributeValue_errSome {p : Printer} {e : Nat}
    (hp : p.err = some e) (sk : Sink) (s : Str) :
    p.printAttributeValue sk s = p :=
  printAttrValLoop_fuel_errSome sk s _ 0 0 p (Nat.le_refl _) hp

theorem okSink_accept (k : Nat) (s : Str) : okSink.accept k s = s.length := rfl

theorem okSink_errAt (k : Nat) : okSink.errAt k = none := rfl

theorem printString_okSink {p : Printer} (h : p.err = none) (s : Str) :
    p.printString okSink s =
      ⟨p.calls + 1, p.out ++ s, p.length + s.length, none⟩ := by
  simp [Printer.printString, h, okSink]

theorem printStringsLoop_okSink :
    ∀ (sl : List Str) (p : Printer), p.err = none →
      Printer.printStringsLoop okSink sl p =
        ⟨p.calls + sl.length, p.out ++ sl.flatten,
         p.length + (sl.map List.length).sum, none⟩ := by
  intro sl
  induction sl with
  | nil =>
    intro p h
    rw [Printer.printStringsLoop, ← h]
    simp
  | cons s rest ih =>
    intro p h
    simp only [Printer.printStringsLoop, okSink_accept, okSink_errAt]
    rw [ih _ rfl]
    simp
    omega

theorem printStrings_okSink {p : Printer} (h : p.err = none) (sl : List Str) :
    p.printStrings okSink sl =
      ⟨p.calls + sl.length, p.out ++ sl.flatten,
       p.length + (sl.map List.length).sum, none⟩ := by
  rw [Printer.printStrings, h]
  exact printStringsLoop_okSink sl p h

theorem printString_inv {sk : Sink} {p : Printer} (h : PrInv sk p) (s : Str) :
    PrInv sk (p.printString sk s) := by
  cases he : p.err with
  | some e => rw [printString_errSome he]; exact h
  | none =>
    rw [PrInv, he] at h
    rw [Printer.printString, he]
    simp only [PrInv, firstErr, ← h]

theorem printStringsLoop_inv {sk : Sink} :
    ∀ (sl : List Str) (p : Printer), p.err = none → PrInv sk p →
      PrInv sk (Printer.printStringsLoop sk sl p) := by
  intro sl
  induction sl with
  | nil => intro p _ h; rw [Printer.printStringsLoop]; exact h
  | cons s rest ih =>
    intro p he h
    rw [PrInv, he] at h
    rw [Printer.printStringsLoop]
    cases hs : sk.errAt p.calls with
    | some e =>
      simp only [hs, PrInv, firstErr, ← h]
    | none =>
      simp only [hs]
      apply ih
      · rfl
      · simp only [PrInv, firstErr, ← h, hs]

theorem printStrings_inv {sk : Sink} {p : Printer} (h : PrInv sk p)
    (sl : List Str) : PrInv sk (p.printStrings sk sl) := by
  cases he : p.err with
  | some e => rw [printStrings_errSome he]; exact h
  | none =>
    rw [Printer.printStrings, he]
    exact printStringsLoop_inv sl p he h

theorem printHTML_inv {sk : Sink} {p : Printer} (h : PrInv sk p) (s : Str) :
    PrInv sk (p.printHTML sk s) := by
  cases he : p.err with
  | some e => rw [printHTML_errSome he]; exact h
  | none => rw [Printer.printHTML, he]; exact printString_inv h _

theorem printComment_inv {sk : Sink} {p : Printer} (h : PrInv sk p) (s : Str) :
    PrInv sk (p.printComment sk s) := by
  cases he : p.err with
  | some e => rw [printComment_errSome he]; exact h
  | none => rw [Printer.printComment, he]; exact printString_inv h _

theorem printAttrValLoop_fuel_inv (sk : Sink) (s : Str) :
    ∀ (k i last : Nat) (p : Printer), s.length - i ≤ k → PrInv sk p →
      PrInv sk (printAttrValLoop sk s i last p) := by
  intro k
  induction k with
  | zero =>
    intro i last p hk hp
    have hi : ¬ i < s.length := by omega
    rw [printAttrValLoop]
    simp only [hi, dite_false]
    exact printString_inv hp _
  | succ k ih =>
    intro i last p hk hp
    rw [printAttrValLoop]
    by_cases hi : i < s.length
    · simp only [hi, dite_true]
      split
      · exact ih _ _ _ (by omega) (printStrings_inv hp _)
      · split
        · exact ih _ _ _ (by omega) (printStrings_inv hp _)
        · split
          · exact ih _ _ _ (by omega) (printStrings_inv hp _)
          · exact ih _ _ _ (by omega) hp
    · simp only [hi, dite_false]
      exact printString_inv hp _

theorem printAttributeValue_inv {sk : Sink} {p : Printer} (h : PrInv sk p)
    (s : Str) : PrInv sk (p.printAttributeValue sk s) :=
  printAttrValLoop_fuel_inv sk s _ 0 0 p (Nat.le_refl _) h

end Printer

/-! Lemmas about `goSlice` and the refinement of `urlEscape` by
`urlEscapeSpec`. -/

theorem getD_eq_getElem {s : Str} {i : Nat} (h : i < s.length) :
    s.getD i 0 = s[i] := by
  simp [List.getD_eq_getElem?_getD, List.getElem?_eq_getElem h]

theorem goSlice_self (s : Str) (a : Nat) : goSlice s a a = [] := by
  simp [goSlice]

theorem goSlice_zero_length (s : Str) : goSlice s 0 s.length = s := by
  simp [goSlice]

theorem goSlice_snoc (s : Str) {a i : Nat} (ha : a ≤ i) (hi : i < s.length) :
    goSlice s a (i + 1) = goSlice s a i ++ [s.getD i 0] := by
  have h1 : i + 1 - a = (i - a) + 1 := by omega
  rw [goSlice, goSlice, h1, List.take_succ]
  have h2 : (s.drop a)[i - a]? = some s[i] := by
    rw [List.getElem?_drop]
    have : a + (i - a) = i := by omega
    rw [this, List.getElem?_eq_getElem hi]
  rw [h2, getD_eq_getElem hi]
  rfl

theorem drop_cons_getD {s : Str} {i : Nat} (hi : i < s.length) :
    s.drop i = s.getD i 0 :: s.drop (i + 1) := by
  rw [List.drop_eq_getElem_cons hi, getD_eq_getElem hi]

theorem twoHex_drop (s : Str) (i : Nat) :
    twoHex (s.drop (i + 1)) =
      (decide (i + 2 < s.length) && isHex (s.getD (i + 1) 0) &&
        isHex (s.getD (i + 2) 0)) := by
  rcases hd : s.drop (i + 1) with _ | ⟨h1, _ | ⟨h2, t⟩⟩
  · have hl := congrArg List.length hd
    simp only [List.length_drop, List.length_nil] at hl
    have : ¬ i + 2 < s.length := by omega
    simp [twoHex, this]
  · have hl := congrArg List.length hd
    simp only [List.length_drop, List.length_cons, List.length_nil] at hl
    have : ¬ i + 2 < s.length := by omega
    simp [twoHex, this]
  · have hl := congrArg List.length hd
    simp only [List.length_drop, List.length_cons] at hl
    have h1lt : i + 1 < s.length := by omega
    have h2lt : i + 2 < s.length := by omega
    have e1 : s.getD (i + 1) 0 = h1 := by
      have := congrArg (fun l => List.getD l 0 0) hd
      simpa [List.getD_eq_getElem?_getD, List.getElem?_drop,
        List.getElem?_eq_getElem h1lt] using this
    have e2 : s.getD (i + 2) 0 = h2 := by
      have := congrArg (fun l => List.getD l 1 0) hd
      have h12 : i + 1 + 1 = i + 2 := by omega
      simpa [List.getD_eq_getElem?_getD, List.getElem?_drop, h12,
        List.getElem?_eq_getElem h2lt] using this
    simp only [twoHex]
    rw [e1, e2]
    simp [h2lt, Bool.and_assoc]

theorem urlKeep_eq (s : Str) (i : Nat) :
    urlKeep s i =
      ((isAlnum (s.getD i 0) || isUnresPunct (s.getD i 0) ||
          isSafeDelim (s.getD i 0)) ||
        (decide (s.getD i 0 = 37) && twoHex (s.drop (i + 1)))) := by
  rw [twoHex_drop]
  rw [urlKeep]
  set c := s.getD i 0 with hc
  by_cases h37 : c = 37
  · simp [h37, isSafeDelim, isUnresPunct, isAlnum, Bool.and_assoc]
  · simp only [h37, if_false, decide_eq_true_eq]
    cases hA : isSafeDelim c <;> cases hB : isUnresPunct c <;>
      simp [hA, hB, h37]

theorem urlEscapeSpec_nil : urlEscapeSpec [] = [] := rfl

set_option maxHeartbeats 2000000 in
theorem urlEscapeLoop_stop {s : Str} {i : Nat} (written : Nat) (sb : Str)
    (h : ¬ i < s.length) :
    urlEscapeLoop s i written sb =
      if written = 0 then s else sb ++ goSlice s written s.length := by
  conv_lhs => unfold urlEscapeLoop
  simp [h]

set_option maxHeartbeats 2000000 in
theorem urlEscapeLoop_keep {s : Str} {i : Nat} (written : Nat) (sb : Str)
    (h : i < s.length) (hk : urlKeep s i = true) :
    urlEscapeLoop s i written sb = urlEscapeLoop s (i + 1) written sb := by
  conv_lhs => unfold urlEscapeLoop
  simp [h, hk]

set_option maxHeartbeats 2000000 in
theorem urlEscapeLoop_esc {s : Str} {i : Nat} (written : Nat) (sb : Str)
    (h : i < s.length) (hk : urlKeep s i = false) :
    urlEscapeLoop s i written sb =
      urlEscapeLoop s (i + 1) (i + 1)
        (sb ++ goSlice s written i ++ pctEnc (s.getD i 0)) := by
  conv_lhs => unfold urlEscapeLoop
  simp [h, hk, getD_eq_getElem h]

theorem urlEscapeLoop_spec (s : Str) :
    ∀ (k i written : Nat) (sb : Str), s.length - i ≤ k → written ≤ i →
      i ≤ s.length → (written = 0 → sb = []) →
      urlEscapeLoop s i written sb =
        sb ++ goSlice s written i ++ urlEscapeSpec (s.drop i) := by
  intro k
  induction k with
  | zero =>
    intro i written sb hk hw hi h0
    have hieq : i = s.length := by omega
    subst hieq
    rw [urlEscapeLoop_stop written sb (by omega)]
    simp only [List.drop_length, urlEscapeSpec_nil, List.append_nil]
    by_cases hz : written = 0
    · simp [hz, h0 hz, goSlice_zero_length]
    · simp [hz]
  | succ k ih =>
    intro i written sb hk hw hi h0
    by_cases hlt : i < s.length
    · have hspec : urlEscapeSpec (s.drop i) =
          if (isAlnum (s.getD i 0) || isUnresPunct (s.getD i 0) ||
              isSafeDelim (s.getD i 0)) then
            s.getD i 0 :: urlEscapeSpec (s.drop (i + 1))
          else if (decide (s.getD i 0 = 37) && twoHex (s.drop (i + 1))) then
            s.getD i 0 :: urlEscapeSpec (s.drop (i + 1))
          else pctEnc (s.getD i 0) ++ urlEscapeSpec (s.drop (i + 1)) := by
        rw [drop_cons_getD hlt, urlEscapeSpec]
      cases hkeep : urlKeep s i with
      | true =>
        rw [urlEscapeLoop_keep written sb hlt hkeep]
        rw [ih (i + 1) written sb (by omega) (by omega) (by omega) h0]
        rw [urlKeep_eq] at hkeep
        rw [hspec, goSlice_snoc s hw hlt]
        rcases Bool.or_eq_true_iff.mp hkeep with h | h
        · rw [if_pos h]
          simp
        · have h37 : s.getD i 0 = 37 := by
            rcases Bool.and_eq_true_iff.mp h with ⟨ha, _⟩
            exact of_decide_eq_true ha
          have hfirst : (isAlnum (s.getD i 0) || isUnresPunct (s.getD i 0) ||
              isSafeDelim (s.getD i 0)) = false := by
            rw [h37]; rfl
          rw [if_neg (by rw [hfirst]; simp), if_pos h]
          simp
      | false =>
        rw [urlEscapeLoop_esc written sb hlt hkeep]
        rw [ih (i + 1) (i + 1) _ (by omega) (by omega) (by omega)
          (by omega)]
        rw [urlKeep_eq] at hkeep
        rw [hspec]
        have hA : (isAlnum (s.getD i 0) || isUnresPunct (s.getD i 0) ||
            isSafeDelim (s.getD i 0)) = false := by
          rcases Bool.or_eq_false_iff.mp hkeep with ⟨h1, _⟩
          exact h1
        have hB : (decide (s.getD i 0 = 37) && twoHex (s.drop (i + 1))) =
            false := by
          rcases Bool.or_eq_false_iff.mp hkeep with ⟨_, h2⟩
          exact h2
        rw [if_neg (by rw [hA]; simp), if_neg (by rw [hB]; simp)]
        simp [goSlice_self]
    · have hieq : i = s.length := by omega
      subst hieq
      rw [urlEscapeLoop_stop written sb (by omega)]
      simp only [List.drop_length, urlEscapeSpec_nil, List.append_nil]
      by_cases hz : written = 0
      · simp [hz, h0 hz, goSlice_zero_length]
      · simp [hz]

/-- The chunked builder loop of `urlEscape` computes exactly the
byte-by-byte escaping described by the spec. -/
theorem urlEscape_eq_spec (s : Str) : urlEscape s = urlEscapeSpec s := by
  rw [urlEscape]
  rw [urlEscapeLoop_spec s s.length 0 0 [] (by omega) (by omega) (by omega)
    (fun _ => rfl)]
  simp [goSlice_self]

/-! Attribute-value escaping as a pure string function, and its agreement
with `printAttributeValue` on the never-failing sink. -/

/-- Byte-level replacement performed by `printAttributeValue` (NUL, `"` and
`&`). -/
def attrEscapeByte (c : Nat) : Str :=
  if c = 0 then [239, 191, 189]
  else if c = 34 then [38, 113, 117, 111, 116, 59]
  else if c = 38 then [38, 97, 109, 112, 59]
  else [c]

/-- The bytes `printAttributeValue` sends to the sink for input `s`. -/
def attrEscape (s : Str) : Str := s.flatMap attrEscapeByte

theorem attrEscape_nil : attrEscape [] = [] := rfl

theorem printAttrValLoop_okSink (s : Str) :
    ∀ (k i last : Nat) (p : Printer), s.length - i ≤ k → last ≤ i →
      i ≤ s.length → p.err = none →
      (Printer.printAttrValLoop okSink s i last p).out =
          p.out ++ goSlice s last i ++ attrEscape (s.drop i) ∧
        (Printer.printAttrValLoop okSink s i last p).err = none := by
  intro k
  induction k with
  | zero =>
    intro i last p hk hl hi he
    have hni : ¬ i < s.length := by omega
    have hieq : i = s.length := by omega
    rw [Printer.printAttrValLoop]
    simp only [hni, dite_false]
    rw [Printer.printString_okSink he]
    subst hieq
    simp [attrEscape_nil, List.drop_length]
  | succ k ih =>
    intro i last p hk hl hi he
    by_cases hlt : i < s.length
    · have hdec : attrEscape (s.drop i) =
          attrEscapeByte (s.getD i 0) ++ attrEscape (s.drop (i + 1)) := by
        rw [drop_cons_getD hlt]
        simp [attrEscape]
      rw [Printer.printAttrValLoop]
      simp only [hlt, dite_true]
      by_cases h0 : s.getD i 0 = 0
      · simp only [h0, if_true]
        have hq := Printer.printStrings_okSink he
          [goSlice s last i, [239, 191, 189]]
        obtain ⟨ho, herr⟩ := ih (i + 1) (i + 1)
          (p.printStrings okSink [goSlice s last i, [239, 191, 189]])
          (by omega) (by omega) (by omega) (by rw [hq])
        refine ⟨?_, herr⟩
        rw [ho, hq, hdec]
        simp only [attrEscapeByte, if_pos h0]
        simp [goSlice_self]
      · simp only [h0, if_false]
        by_cases h34 : s.getD i 0 = 34
        · simp only [h34, if_true]
          have hq := Printer.printStrings_okSink he
            [goSlice s last i, [38, 113, 117, 111, 116, 59]]
          obtain ⟨ho, herr⟩ := ih (i + 1) (i + 1)
            (p.printStrings okSink [goSlice s last i, [38, 113, 117, 111, 116, 59]])
            (by omega) (by omega) (by omega) (by rw [hq])
          refine ⟨?_, herr⟩
          rw [ho, hq, hdec]
          simp only [attrEscapeByte, if_neg h0, if_pos h34]
          simp [goSlice_self]
        · simp only [h34, if_false]
          by_cases h38 : s.getD i 0 = 38
          · simp only [h38, if_true]
            have hq := Printer.printStrings_okSink he
              [goSlice s last i, [38, 97, 109, 112, 59]]
            obtain ⟨ho, herr⟩ := ih (i + 1) (i + 1)
              (p.printStrings okSink [goSlice s last i, [38, 97, 109, 112, 59]])
              (by omega) (by omega) (by omega) (by rw [hq])
            refine ⟨?_, herr⟩
            rw [ho, hq, hdec]
            simp only [attrEscapeByte, if_neg h0, if_neg h34, if_pos h38]
            simp [goSlice_self]
          · simp only [h38, if_false]
            obtain ⟨ho, herr⟩ := ih (i + 1) last p (by omega) (by omega)
              (by omega) he
            refine ⟨?_, herr⟩
            rw [ho, hdec, goSlice_snoc s hl hlt]
            simp only [attrEscapeByte, if_neg h0, if_neg h34, if_neg h38]
            simp
    · have hieq : i = s.length := by omega
      rw [Printer.printAttrValLoop]
      simp only [hlt, dite_false]
      rw [Printer.printString_okSink he]
      subst hieq
      simp [attrEscape_nil, List.drop_length]

theorem printAttributeValue_okSink {p : Printer} (he : p.err = none)
    (s : Str) :
    (p.printAttributeValue okSink s).out = p.out ++ attrEscape s ∧
      (p.printAttributeValue okSink s).err = none := by
  have h := printAttrValLoop_okSink s s.length 0 0 p (by omega) (by omega)
    (by omega) he
  simpa [Printer.printAttributeValue, goSlice_self] using h

/-! Idempotence of the URL escaping, and absence of whitespace in its
output. -/

theorem isHex_hexDigit {d : Nat} (h : d < 16) : isHex (hexDigit d) = true := by
  by_cases hd : d < 10 <;> simp [isHex, hexDigit, hd] <;> omega

theorem isAlnum_hexDigit {d : Nat} (h : d < 16) :
    isAlnum (hexDigit d) = true := by
  by_cases hd : d < 10 <;> simp [isAlnum, hexDigit, hd] <;> omega

theorem isAlnum_of_isHex {c : Nat} (h : isHex c = true) :
    isAlnum c = true := by
  simp [isHex] at h
  simp [isAlnum]
  omega

theorem urlEscapeSpec_keep {c : Nat} (t : Str)
    (h : (isAlnum c || isUnresPunct c || isSafeDelim c) = true) :
    urlEscapeSpec (c :: t) = c :: urlEscapeSpec t := by
  rw [urlEscapeSpec, if_pos h]

theorem urlEscapeSpec_keep_alnum {c : Nat} (t : Str)
    (h : isAlnum c = true) :
    urlEscapeSpec (c :: t) = c :: urlEscapeSpec t :=
  urlEscapeSpec_keep t (by simp [h])

theorem keep37_false : (isAlnum 37 || isUnresPunct 37 || isSafeDelim 37) =
    false := by decide

theorem urlEscapeSpec_idem_fuel :
    ∀ (n : Nat) (s : Str), s.length ≤ n →
      urlEscapeSpec (urlEscapeSpec s) = urlEscapeSpec s := by
  intro n
  induction n with
  | zero =>
    intro s hs
    have hnil : s = [] := by
      cases s with
      | nil => rfl
      | cons a t => simp at hs
    subst hnil
    rfl
  | succ n ih =>
    intro s hs
    cases s with
    | nil => rfl
    | cons c t =>
      simp only [List.length_cons] at hs
      by_cases hA : (isAlnum c || isUnresPunct c || isSafeDelim c) = true
      · rw [urlEscapeSpec_keep t hA, urlEscapeSpec_keep _ hA, ih t (by omega)]
      · by_cases hB : (decide (c = 37) && twoHex t) = true
        · have hc37 : c = 37 :=
            of_decide_eq_true (Bool.and_eq_true_iff.mp hB).1
          have htwo : twoHex t = true := (Bool.and_eq_true_iff.mp hB).2
          subst hc37
          rcases t with _ | ⟨h1, _ | ⟨h2, r⟩⟩
          · simp [twoHex] at htwo
          · simp [twoHex] at htwo
          · have hx := Bool.and_eq_true_iff.mp htwo
            have ha1 : isAlnum h1 = true := isAlnum_of_isHex hx.1
            have ha2 : isAlnum h2 = true := isAlnum_of_isHex hx.2
            have hinner : urlEscapeSpec (37 :: h1 :: h2 :: r) =
                37 :: h1 :: h2 :: urlEscapeSpec r := by
              rw [urlEscapeSpec, if_neg hA, if_pos hB,
                urlEscapeSpec_keep_alnum _ ha1, urlEscapeSpec_keep_alnum _ ha2]
            rw [hinner]
            rw [urlEscapeSpec, if_neg (by rw [keep37_false]; simp),
              if_pos (by simp [twoHex, hx.1, hx.2]),
              urlEscapeSpec_keep_alnum _ ha1, urlEscapeSpec_keep_alnum _ ha2]
            simp only [List.length_cons] at hs
            rw [ih r (by omega)]
        · have houter : urlEscapeSpec (c :: t) =
              pctEnc c ++ urlEscapeSpec t := by
            rw [urlEscapeSpec, if_neg hA, if_neg hB]
          rw [houter]
          have hd1 : c / 16 % 16 < 16 := Nat.mod_lt _ (by omega)
          have hd2 : c % 16 < 16 := Nat.mod_lt _ (by omega)
          rw [show pctEnc c ++ urlEscapeSpec t =
            37 :: hexDigit (c / 16 % 16) :: hexDigit (c % 16) ::
              urlEscapeSpec t from rfl]
          rw [urlEscapeSpec, if_neg (by rw [keep37_false]; simp),
            if_pos (by simp [twoHex, isHex_hexDigit hd1, isHex_hexDigit hd2]),
            urlEscapeSpec_keep_alnum _ (isAlnum_hexDigit hd1),
            urlEscapeSpec_keep_alnum _ (isAlnum_hexDigit hd2),
            ih t (by omega)]

theorem urlEscapeSpec_idem (s : Str) :
    urlEscapeSpec (urlEscapeSpec s) = urlEscapeSpec s :=
  urlEscapeSpec_idem_fuel s.length s (Nat.le_refl _)

/-- Every byte in the output of the URL escaping is a kept byte or part of
a `%xx` triple; none of them is whitespace. -/
theorem urlEscapeSpec_no_space :
    ∀ (s : Str) (b : Nat), b ∈ urlEscapeSpec s → isSpaceB b = false := by
  intro s
  induction s with
  | nil => intro b hb; simp [urlEscapeSpec] at hb
  | cons c t ih =>
    intro b hb
    by_cases hA : (isAlnum c || isUnresPunct c || isSafeDelim c) = true
    · rw [urlEscapeSpec_keep t hA] at hb
      rcases List.mem_cons.mp hb with hbc | hbt
      · subst hbc
        rcases Bool.or_eq_true_iff.mp hA with h | h
        · rcases Bool.or_eq_true_iff.mp h with h1 | h1
          · simp [isAlnum] at h1; simp [isSpaceB]; omega
          · simp [isUnresPunct] at h1; simp [isSpaceB]; omega
        · simp [isSafeDelim] at h; simp [isSpaceB]; omega
      · exact ih b hbt
    · by_cases hB : (decide (c = 37) && twoHex t) = true
      · rw [urlEscapeSpec, if_neg hA, if_pos hB] at hb
        rcases List.mem_cons.mp hb with hbc | hbt
        · have hc : c = 37 := of_decide_eq_true (Bool.and_eq_true_iff.mp hB).1
          rw [hbc, hc]
          rfl
        · exact ih b hbt
      · rw [urlEscapeSpec, if_neg hA, if_neg hB] at hb
        rcases List.mem_append.mp hb with hbp | hbt
        · have hd1 : c / 16 % 16 < 16 := Nat.mod_lt _ (by omega)
          have hd2 : c % 16 < 16 := Nat.mod_lt _ (by omega)
          simp only [pctEnc, List.mem_cons, List.not_mem_nil, or_false] at hbp
          rcases hbp with h | h | h
          · subst h; rfl
          · subst h
            have h1 := isAlnum_hexDigit hd1
            simp [isAlnum] at h1
            simp [isSpaceB]
            omega
          · subst h
            have h2 := isAlnum_hexDigit hd2
            simp [isAlnum] at h2
            simp [isSpaceB]
            omega
        · exact ih b hbt

theorem trimSpace_eq_self {s : Str} (h : ∀ b ∈ s, isSpaceB b = false) :
    trimSpace s = s := by
  have h1 : s.dropWhile isSpaceB = s := by
    cases s with
    | nil => rfl
    | cons a t =>
      rw [List.dropWhile_cons, h a (by simp)]
      simp
  rw [trimSpace, h1]
  have h2 : s.reverse.dropWhile isSpaceB = s.reverse := by
    cases hr : s.reverse with
    | nil => rfl
    | cons a t =>
      have ha : a ∈ s := by
        rw [← List.mem_reverse, hr]
        simp
      rw [List.dropWhile_cons, h a ha]
      simp
  rw [h2, List.reverse_reverse]

/-- Trimming after URL escaping is a no-op: the escaped output contains no
whitespace byte. -/
theorem trimSpace_urlEscape (s : Str) : trimSpace (urlEscape s) = urlEscape s := by
  rw [urlEscape_eq_spec]
  exact trimSpace_eq_self (fun b hb => urlEscapeSpec_no_space s b hb)

/-! Comment escaping can never leave two adjacent dashes. -/

/-- Whether the byte string contains two adjacent `-` bytes. -/
def hasDD : Str → Bool
  | [] => false
  | [_] => false
  | c1 :: c2 :: t => (decide (c1 = 45) && decide (c2 = 45)) || hasDD (c2 :: t)

theorem hasDD_cons_ne {c : Nat} (h : ¬ c = 45) (l : Str) :
    hasDD (c :: l) = hasDD l := by
  cases l with
  | nil => rfl
  | cons x xs => simp [hasDD, h]

theorem commentEscape_shape (c : Nat) (t : Str) :
    ∃ u, commentEscape (c :: t) = c :: u := by
  cases t with
  | nil => exact ⟨[], rfl⟩
  | cons c2 r =>
    by_cases h : c = 45 ∧ c2 = 45
    · obtain ⟨hc, hc2⟩ := h
      subst hc
      subst hc2
      exact ⟨[38, 35, 52, 53, 59] ++ commentEscape r,
        by rw [commentEscape, if_pos ⟨rfl, rfl⟩]; rfl⟩
    · exact ⟨commentEscape (c2 :: r), by rw [commentEscape, if_neg h]⟩

theorem hasDD_esc (l : Str) : hasDD ([45, 38, 35, 52, 53, 59] ++ l) = hasDD l := by
  have h1 : hasDD (45 :: 38 :: 35 :: 52 :: 53 :: 59 :: l) =
      hasDD (38 :: 35 :: 52 :: 53 :: 59 :: l) := by
    simp [hasDD]
  rw [show ([45, 38, 35, 52, 53, 59] ++ l : Str) =
    45 :: 38 :: 35 :: 52 :: 53 :: 59 :: l from rfl, h1,
    hasDD_cons_ne (by decide), hasDD_cons_ne (by decide),
    hasDD_cons_ne (by decide), hasDD_cons_ne (by decide),
    hasDD_cons_ne (by decide)]

theorem commentEscape_noDD_fuel :
    ∀ (n : Nat) (s : Str), s.length ≤ n → hasDD (commentEscape s) = false := by
  intro n
  induction n with
  | zero =>
    intro s hs
    have : s = [] := by
      cases s with
      | nil => rfl
      | cons a t => simp at hs
    subst this
    rfl
  | succ n ih =>
    intro s hs
    match s with
    | [] => rfl
    | [c] => rfl
    | c1 :: c2 :: rest =>
      simp only [List.length_cons] at hs
      by_cases h : c1 = 45 ∧ c2 = 45
      · rw [commentEscape, if_pos h, hasDD_esc]
        exact ih rest (by omega)
      · rw [commentEscape, if_neg h]
        obtain ⟨u, hu⟩ := commentEscape_shape c2 rest
        rw [hu]
        by_cases hc1 : c1 = 45
        · have hc2 : ¬ c2 = 45 := fun hcc => h ⟨hc1, hcc⟩
          have e : hasDD (c1 :: c2 :: u) = hasDD (c2 :: u) := by
            simp [hasDD, hc2]
          rw [e, ← hu]
          exact ih (c2 :: rest) (by simp only [List.length_cons]; omega)
        · rw [hasDD_cons_ne hc1, ← hu]
          exact ih (c2 :: rest) (by simp only [List.length_cons]; omega)

theorem commentEscape_noDD (s : Str) : hasDD (commentEscape s) = false :=
  commentEscape_noDD_fuel s.length s (Nat.le_refl _)

/-- C10: the URL escaping function is idempotent: applying `urlEscape`
twice yields the same result as applying it once, because its output
consists only of unreserved bytes, safe delimiter bytes, and well-formed
`%xx` escapes, all of which pass through unchanged on a second
application. -/
theorem sxhtml_c10 : ∀ s : Str, urlEscape (urlEscape s) = urlEscape s := by
  intro s
  rw [urlEscape_eq_spec (urlEscape s), urlEscape_eq_spec s]
  exact urlEscapeSpec_idem s

/-- C8: URL escaping percent-encodes (as lower-case two-digit hex) every
byte outside the unreserved and safe-delimiter sets, passing a `%` with
two following hex digits through unescaped — `urlEscape` equals the
spec-side `urlEscapeSpec` on every input — and escaping the bytes of
`search?q=%&r=Ä` followed by attribute-value escaping yields the bytes of
`search?q=%25&amp;r=%c3%84`, with no unescaped `&` and no raw non-ASCII
byte. -/
theorem sxhtml_c8 :
    (∀ s : Str, urlEscape s = urlEscapeSpec s) ∧
      (pr0.printAttributeValue okSink (urlEscape
          [115, 101, 97, 114, 99, 104, 63, 113, 61, 37, 38, 114, 61, 195, 132])).out =
        [115, 101, 97, 114, 99, 104, 63, 113, 61, 37, 50, 53, 38, 97, 109,
         112, 59, 114, 61, 37, 99, 51, 37, 56, 52] := by
  refine ⟨urlEscape_eq_spec, ?_⟩
  rw [urlEscape_eq_spec]
  rw [(printAttributeValue_okSink (p := pr0) rfl _).1]
  decide

/-- C5 (amended): the stored attribute value is
`TrimSpace(getAttributeValue(sym, s))`; for non-URL attributes the value
is therefore trimmed before the (only) escaping, the attribute-value
escaping at write time, while for URL attributes the trim runs after URL
escaping and is a no-op (URL-escaped output contains no whitespace), so
surrounding whitespace of a URL value is percent-encoded, not removed. -/
theorem sxhtml_c5 : ∀ k s : Str,
    trimSpace (getAttributeValue k s) =
      (if getAttributeType k = AttrType.url then urlEscape s
       else trimSpace s) := by
  intro k s
  rw [getAttributeValue]
  cases ht : getAttributeType k with
  | url => simp [ht, trimSpace_urlEscape]
  | plain => simp [ht]
  | css => simp [ht]
  | js => simp [ht]

/-- C5 (counterexample): for the URL attribute `href` and the value
consisting of a space followed by `x`, the code stores the bytes of
`%20x` (escape, then trim), while trimming before escaping — as the
claim states — would store the bytes of `x`; the two disagree. -/
theorem sxhtml_c5_counterexample :
    trimSpace (getAttributeValue (bytes ['h', 'r', 'e', 'f']) [32, 120]) =
        [37, 50, 48, 120] ∧
      getAttributeValue (bytes ['h', 'r', 'e', 'f'])
          (trimSpace [32, 120]) = [120] ∧
      ([37, 50, 48, 120] : Str) ≠ [120] := by
  have ht : getAttributeType (bytes ['h', 'r', 'e', 'f']) = AttrType.url := by
    decide
  refine ⟨?_, ?_, by decide⟩
  · rw [getAttributeValue, ht]
    rw [urlEscape_eq_spec]
    decide
  · have h2 : trimSpace [32, 120] = [120] := by decide
    rw [h2, getAttributeValue, ht, urlEscape_eq_spec]
    decide

/-! The attribute loop of `writeAttributes`: the contribution of a key is
determined by the first entry bearing that key. -/

/-- The key under which the entry loop would register an entry: the entry
must be a pair whose car is a symbol. -/
def entrySym (val : Obj) : Option Str :=
  if val.isPairO then (Obj.car val).getSym else none

/-- The first entry bearing key `k`. -/
def findEntry (entries : List Obj) (k : Str) : Option Obj :=
  entries.find? (fun v => decide (entrySym v = some k))

/-- The value object the loop extracts from an entry with non-nil cdr. -/
def entryObjOf (val : Obj) : Obj :=
  if (Obj.cdr val).isPairO then (Obj.cdr val).car else Obj.cdr val

/-- Effect of a first-occurrence entry on the attribute map. -/
inductive EntryEff where
  | bound : Str → EntryEff
  | boolean : EntryEff
  | dropped : EntryEff
deriving DecidableEq, Repr

/-- The effect the entry loop gives an entry with key `k` on its first
occurrence: a bare boolean attribute, a dropped binding (tombstone), or a
bound value. -/
def entryEff (k : Str) (val : Obj) : EntryEff :=
  if (Obj.cdr val).isNilO then .boolean
  else
    match coerceAttr (entryObjOf val) with
    | none => .dropped
    | some s => .bound (trimSpace (getAttributeValue k s))

/-- The keys bound in the attribute map. -/
def aKeys (st : AttrState) : List Str := st.a.map Prod.fst

/-- Observable contribution of key `k` in an attribute state: bound?,
value, bare boolean? -/
def keyState (st : AttrState) (k : Str) : Bool × Str × Bool :=
  (decide (k ∈ aKeys st), lookupA st.a k, decide (k ∈ st.empty))

/-- The contribution the first entry for `k` induces. -/
def effState (k : Str) : Option Obj → Bool × Str × Bool
  | none => (false, [], false)
  | some v =>
    match entryEff k v with
    | .bound s => (true, s, false)
    | .boolean => (true, [], true)
    | .dropped => (false, [], false)

theorem lookupA_append_ne {a : List (Str × Str)} {k2 k : Str} (v : Str)
    (h : k2 ≠ k) : lookupA (a ++ [(k2, v)]) k = lookupA a k := by
  induction a with
  | nil => simp [lookupA, h]
  | cons x t ih =>
    obtain ⟨xk, xv⟩ := x
    simp only [List.cons_append, lookupA, List.append_eq]
    rw [ih]

theorem lookupA_append_self {a : List (Str × Str)} {k : Str} (v : Str)
    (h : k ∉ a.map Prod.fst) : lookupA (a ++ [(k, v)]) k = v := by
  induction a with
  | nil => simp [lookupA]
  | cons x t ih =>
    obtain ⟨xk, xv⟩ := x
    simp only [List.map_cons, List.mem_cons] at h
    push_neg at h
    simp only [List.cons_append, lookupA, if_neg (Ne.symm h.1)]
    exact ih h.2

theorem lookupA_not_mem {a : List (Str × Str)} {k : Str}
    (h : k ∉ a.map Prod.fst) : lookupA a k = [] := by
  induction a with
  | nil => rfl
  | cons x t ih =>
    obtain ⟨xk, xv⟩ := x
    simp only [List.map_cons, List.mem_cons] at h
    push_neg at h
    simp only [lookupA, if_neg (Ne.symm h.1)]
    exact ih h.2

theorem attrStep_nokey {val : Obj} (h : entrySym val = none)
    (st : AttrState) : attrStep st val = st := by
  rw [attrStep]
  by_cases hp : val.isPairO
  · rw [entrySym, if_pos hp] at h
    simp [hp, h]
  · simp [hp]

theorem attrStep_dup {val : Obj} {k : Str} (h : entrySym val = some k)
    {st : AttrState} (hf : k ∈ st.found) : attrStep st val = st := by
  have hp : val.isPairO = true := by
    by_cases hpp : val.isPairO
    · exact hpp
    · rw [entrySym, if_neg hpp] at h
      exact absurd h (by simp)
  rw [entrySym, if_pos hp] at h
  rw [attrStep]
  simp [hp, h, hf]

theorem attrStep_new {val : Obj} {k : Str} (h : entrySym val = some k)
    {st : AttrState} (hf : k ∉ st.found) :
    attrStep st val =
      match entryEff k val with
      | .boolean => ⟨st.found ++ [k], st.empty ++ [k], st.a ++ [(k, [])]⟩
      | .dropped => ⟨st.found ++ [k], st.empty, st.a⟩
      | .bound s => ⟨st.found ++ [k], st.empty, st.a ++ [(k, s)]⟩ := by
  have hp : val.isPairO = true := by
    by_cases hpp : val.isPairO
    · exact hpp
    · rw [entrySym, if_neg hpp] at h
      exact absurd h (by simp)
  rw [entrySym, if_pos hp] at h
  rw [attrStep]
  simp only [hp, if_true, h, hf, if_false, entryEff]
  by_cases hn : (Obj.cdr val).isNilO
  · simp [hn]
  · simp only [hn, if_false, if_true, entryObjOf]
    cases hc : coerceAttr (if (Obj.cdr val).isPairO then (Obj.cdr val).car
        else Obj.cdr val) with
    | none => simp [hc]
    | some s => simp [hc]

theorem attrStep_found_mono {k : Str} {st : AttrState} (v : Obj)
    (h : k ∈ st.found) : k ∈ (attrStep st v).found := by
  cases hv : entrySym v with
  | none => rw [attrStep_nokey hv]; exact h
  | some k2 =>
    by_cases hf : k2 ∈ st.found
    · rw [attrStep_dup hv hf]; exact h
    · rw [attrStep_new hv hf]
      cases entryEff k2 v <;> simp <;> exact Or.inl h

theorem keyState_attrStep_other {k : Str} {v : Obj}
    (hv : entrySym v ≠ some k) (st : AttrState) :
    keyState (attrStep st v) k = keyState st k := by
  cases hv2 : entrySym v with
  | none => rw [attrStep_nokey hv2]
  | some k2 =>
    have hne : k2 ≠ k := fun he => hv (by rw [hv2, he])
    by_cases hf : k2 ∈ st.found
    · rw [attrStep_dup hv2 hf]
    · rw [attrStep_new hv2 hf]
      cases heff : entryEff k2 v <;>
        simp only [keyState, aKeys] <;>
        rw [lookupA_append_ne _ hne] <;>
        simp [hne, Ne.symm hne]

theorem keyState_attrStep_other_pres {k : Str} {v : Obj}
    (hv : entrySym v ≠ some k) {st : AttrState} (h1 : k ∉ st.found)
    (h2 : k ∉ aKeys st) (h3 : k ∉ st.empty) :
    k ∉ (attrStep st v).found ∧ k ∉ aKeys (attrStep st v) ∧
      k ∉ (attrStep st v).empty := by
  cases hv2 : entrySym v with
  | none => rw [attrStep_nokey hv2]; exact ⟨h1, h2, h3⟩
  | some k2 =>
    have hne : k2 ≠ k := fun he => hv (by rw [hv2, he])
    by_cases hf : k2 ∈ st.found
    · rw [attrStep_dup hv2 hf]; exact ⟨h1, h2, h3⟩
    · rw [attrStep_new hv2 hf]
      cases heff : entryEff k2 v <;>
        simp_all [aKeys, Ne.symm hne]

theorem foldl_keyState_found (k : Str) :
    ∀ (l : List Obj) (st : AttrState), k ∈ st.found →
      keyState (List.foldl attrStep st l) k = keyState st k := by
  intro l
  induction l with
  | nil => intro st _; rfl
  | cons v rest ih =>
    intro st hf
    rw [List.foldl_cons]
    by_cases hv : entrySym v = some k
    · rw [attrStep_dup hv hf]
      exact ih st hf
    · rw [ih _ (attrStep_found_mono v hf), keyState_attrStep_other hv]

theorem not_mem_aKeys_pair {st : AttrState} {k : Str} (h : k ∉ aKeys st) :
    ∀ x : Str, (k, x) ∉ st.a := by
  intro x hx
  exact h (List.mem_map_of_mem Prod.fst hx)

theorem foldl_keyState_new (k : Str) :
    ∀ (l : List Obj) (st : AttrState), k ∉ st.found → k ∉ aKeys st →
      k ∉ st.empty →
      keyState (List.foldl attrStep st l) k = effState k (findEntry l k) := by
  intro l
  induction l with
  | nil =>
    intro st h1 h2 h3
    simp only [List.foldl_nil, findEntry, List.find?_nil, effState, keyState]
    rw [lookupA_not_mem h2]
    simp [h2, h3, aKeys, not_mem_aKeys_pair h2]
  | cons v rest ih =>
    intro st h1 h2 h3
    rw [List.foldl_cons]
    by_cases hv : entrySym v = some k
    · have hfind : findEntry (v :: rest) k = some v := by
        rw [findEntry, List.find?_cons_of_pos]
        simp [hv]
      rw [hfind]
      rw [attrStep_new hv h1]
      cases heff : entryEff k v with
      | bound s =>
        rw [foldl_keyState_found k rest _ (by simp)]
        simp only [keyState, aKeys, effState, heff, List.map_append]
        rw [lookupA_append_self _ h2]
        simp [h2, h3, aKeys, not_mem_aKeys_pair h2]
      | boolean =>
        rw [foldl_keyState_found k rest _ (by simp)]
        simp only [keyState, aKeys, effState, heff, List.map_append]
        rw [lookupA_append_self _ h2]
        simp [h2, h3, aKeys, not_mem_aKeys_pair h2]
      | dropped =>
        rw [foldl_keyState_found k rest _ (by simp)]
        simp only [keyState, aKeys, effState, heff]
        rw [lookupA_not_mem h2]
        simp [h2, h3, aKeys, not_mem_aKeys_pair h2]
    · have hfind : findEntry (v :: rest) k = findEntry rest k := by
        rw [findEntry, List.find?_cons_of_neg]
        · rfl
        · simp [hv]
      rw [hfind]
      obtain ⟨p1, p2, p3⟩ := keyState_attrStep_other_pres hv h1 h2 h3
      exact ih (attrStep st v) p1 p2 p3

/-- In the state built by the entry loop, the contribution of every key is
the one induced by the first entry bearing that key. -/
theorem procAttrs_keyState (entries : List Obj) (k : Str) :
    keyState (procAttrs entries) k = effState k (findEntry entries k) := by
  rw [procAttrs]
  exact foldl_keyState_new k entries ⟨[], [], []⟩ (by simp) (by simp [aKeys])
    (by simp)

theorem mem_sortedKeys_iff {st : AttrState} {k : Str} :
    k ∈ sortedKeys st ↔ k ∈ aKeys st := by
  rw [sortedKeys]
  exact (List.perm_insertionSort _ _).mem_iff

theorem printAttributeValue_okSink_out {p : Printer} (he : p.err = none)
    (s : Str) :
    (p.printAttributeValue okSink s).out = p.out ++ attrEscape s :=
  (printAttributeValue_okSink he s).1

theorem printAttributeValue_okSink_err {p : Printer} (he : p.err = none)
    (s : Str) : (p.printAttributeValue okSink s).err = none :=
  (printAttributeValue_okSink he s).2

theorem printString_okSink_out {p : Printer} (he : p.err = none) (s : Str) :
    (p.printString okSink s).out = p.out ++ s := by
  rw [Printer.printString_okSink he]

theorem printString_okSink_err {p : Printer} (he : p.err = none) (s : Str) :
    (p.printString okSink s).err = none := by
  rw [Printer.printString_okSink he]

theorem printStrings_okSink_out {p : Printer} (he : p.err = none)
    (sl : List Str) :
    (p.printStrings okSink sl).out = p.out ++ sl.flatten := by
  rw [Printer.printStrings_okSink he]

theorem printStrings_okSink_err {p : Printer} (he : p.err = none)
    (sl : List Str) : (p.printStrings okSink sl).err = none := by
  rw [Printer.printStrings_okSink he]

theorem pr0_err : pr0.err = none := rfl

theorem pr0_out : pr0.out = [] := rfl

/-- C2: if the first entry for a key `k` in an attribute list carries the
value Nil, then `k` is not among the emitted keys at all — even when a
later entry binds `k` to a non-Nil value; and when a non-Nil entry for `k`
comes first, it alone fixes the emitted binding of `k`, so a later
Nil-valued entry is ignored like any other duplicate. -/
theorem sxhtml_c2 :
    (∀ (entries : List Obj) (k : Str) (v : Obj),
        findEntry entries k = some v → (Obj.cdr v).isNilO = false →
        entryObjOf v = Obj.nil →
        k ∉ sortedKeys (procAttrs entries)) ∧
      (∀ (entries : List Obj) (k : Str) (v : Obj) (s : Str),
        findEntry entries k = some v → entryEff k v = EntryEff.bound s →
        k ∈ sortedKeys (procAttrs entries) ∧
          lookupA (procAttrs entries).a k = s) := by
  constructor
  · intro entries k v hfind hnil hobj
    have heff : entryEff k v = EntryEff.dropped := by
      rw [entryEff, if_neg (by simp [hnil]), hobj]
      rfl
    have hks := procAttrs_keyState entries k
    rw [hfind] at hks
    simp only [effState, heff, keyState, Prod.mk.injEq] at hks
    intro hk
    have := of_decide_eq_false hks.1
    exact this (mem_sortedKeys_iff.mp hk)
  · intro entries k v s hfind heff
    have hks := procAttrs_keyState entries k
    rw [hfind] at hks
    simp only [effState, heff, keyState, Prod.mk.injEq] at hks
    exact ⟨mem_sortedKeys_iff.mpr (of_decide_eq_true hks.1), hks.2.1⟩

theorem sxhtml_c2_witness :
    [97] ∉ sortedKeys (procAttrs
      [Obj.pair (Obj.sym [97]) (Obj.pair Obj.nil Obj.nil),
       Obj.pair (Obj.sym [97]) (Obj.str [121, 101, 115])]) :=
  sxhtml_c2.1
    [Obj.pair (Obj.sym [97]) (Obj.pair Obj.nil Obj.nil),
     Obj.pair (Obj.sym [97]) (Obj.str [121, 101, 115])]
    [97] (Obj.pair (Obj.sym [97]) (Obj.pair Obj.nil Obj.nil))
    (by decide) (by decide) (by decide)

/-- C3: in an attribute list with duplicate keys, the first occurrence of
a key alone determines its emitted binding — the contribution of every key
in the assembled state is a function of the first entry bearing it — and
for the entries `(a . "z") (a . "a")` the rendered attribute output is
` a="z"`. -/
theorem sxhtml_c3 :
    (∀ (entries : List Obj) (k : Str),
        keyState (procAttrs entries) k = effState k (findEntry entries k)) ∧
      (writeAttributes okSink
          (Obj.pair (Obj.pair (Obj.sym [97]) (Obj.str [122]))
            (Obj.pair (Obj.pair (Obj.sym [97]) (Obj.str [97])) Obj.nil))
          pr0).out = [32, 97, 61, 34, 122, 34] := by
  refine ⟨procAttrs_keyState, ?_⟩
  rw [writeAttributes]
  have hst : procAttrs (Obj.values (Obj.pair
      (Obj.pair (Obj.sym [97]) (Obj.str [122]))
      (Obj.pair (Obj.pair (Obj.sym [97]) (Obj.str [97])) Obj.nil))) =
      ⟨[[97]], [], [([97], [122])]⟩ := by decide
  rw [hst, writeAttrsOut]
  have hkeys : sortedKeys (⟨[[97]], [], [([97], [122])]⟩ : AttrState) =
      [[97]] := rfl
  rw [hkeys]
  simp
  rw [printString_okSink_out, printAttributeValue_okSink_out,
    printString_okSink_out, printStrings_okSink_out] <;>
    first
      | decide
      | (repeat
          first
            | exact pr0_err
            | apply printAttributeValue_okSink_err
            | apply printString_okSink_err
            | apply printStrings_okSink_err)

/-! Permutation invariance of the attribute output for duplicate-free
entry lists (claim C4). -/

/-- The key/value binding an entry contributes when no duplicate keys are
present. -/
def entryPair (v : Obj) : Option (Str × Str) :=
  match entrySym v with
  | none => none
  | some k =>
    match entryEff k v with
    | .bound s => some (k, s)
    | .boolean => some (k, [])
    | .dropped => none

/-- The bare-boolean marker an entry contributes when no duplicate keys
are present. -/
def boolKey (v : Obj) : Option Str :=
  match entrySym v with
  | none => none
  | some k =>
    match entryEff k v with
    | .boolean => some k
    | _ => none

theorem foldl_attrStep_nodup :
    ∀ (l : List Obj) (st : AttrState),
      (∀ k ∈ l.filterMap entrySym, k ∉ st.found) →
      (l.filterMap entrySym).Nodup →
      List.foldl attrStep st l =
        ⟨st.found ++ l.filterMap entrySym, st.empty ++ l.filterMap boolKey,
          st.a ++ l.filterMap entryPair⟩ := by
  intro l
  induction l with
  | nil =>
    intro st _ _
    simp
  | cons v rest ih =>
    intro st hout hnd
    rw [List.foldl_cons]
    cases hv : entrySym v with
    | none =>
      rw [attrStep_nokey hv]
      rw [ih st (fun k hk => hout k (by simp [List.filterMap_cons, hv, hk]))
        (by simpa [List.filterMap_cons, hv] using hnd)]
      simp [List.filterMap_cons, hv, boolKey, entryPair]
    | some k2 =>
      have hk2 : k2 ∉ st.found :=
        hout k2 (by simp [List.filterMap_cons, hv])
      rw [attrStep_new hv hk2]
      have hnd' : ((v :: rest).filterMap entrySym).Nodup := hnd
      rw [List.filterMap_cons, hv] at hnd'
      have hk2rest : k2 ∉ rest.filterMap entrySym := (List.nodup_cons.mp hnd').1
      have hndrest : (rest.filterMap entrySym).Nodup := (List.nodup_cons.mp hnd').2
      cases heff : entryEff k2 v with
      | bound s =>
        rw [ih ⟨st.found ++ [k2], st.empty, st.a ++ [(k2, s)]⟩
          (by
            intro k hk
            simp only [List.mem_append, List.mem_singleton]
            push_neg
            exact ⟨hout k (by simp [List.filterMap_cons, hv, hk]),
              fun he => hk2rest (he ▸ hk)⟩)
          hndrest]
        simp [List.filterMap_cons, hv, boolKey, entryPair, heff]
      | boolean =>
        rw [ih ⟨st.found ++ [k2], st.empty ++ [k2], st.a ++ [(k2, [])]⟩
          (by
            intro k hk
            simp only [List.mem_append, List.mem_singleton]
            push_neg
            exact ⟨hout k (by simp [List.filterMap_cons, hv, hk]),
              fun he => hk2rest (he ▸ hk)⟩)
          hndrest]
        simp [List.filterMap_cons, hv, boolKey, entryPair, heff]
      | dropped =>
        rw [ih ⟨st.found ++ [k2], st.empty, st.a⟩
          (by
            intro k hk
            simp only [List.mem_append, List.mem_singleton]
            push_neg
            exact ⟨hout k (by simp [List.filterMap_cons, hv, hk]),
              fun he => hk2rest (he ▸ hk)⟩)
          hndrest]
        simp [List.filterMap_cons, hv, boolKey, entryPair, heff]

theorem lookupA_perm {a1 a2 : List (Str × Str)} (hp : a1.Perm a2)
    (hnd : (a1.map Prod.fst).Nodup) (k : Str) :
    lookupA a1 k = lookupA a2 k := by
  induction hp with
  | nil => rfl
  | cons x h ih =>
    obtain ⟨xk, xv⟩ := x
    simp only [List.map_cons, List.nodup_cons] at hnd
    simp only [lookupA]
    rw [ih hnd.2]
  | swap x y l =>
    obtain ⟨xk, xv⟩ := x
    obtain ⟨yk, yv⟩ := y
    simp only [List.map_cons, List.nodup_cons, List.mem_cons] at hnd
    push_neg at hnd
    simp only [lookupA]
    by_cases hx : xk = k
    · by_cases hy : yk = k
      · exact absurd (hy.trans hx.symm) hnd.1.1
      · simp [hx, hy]
    · simp [hx]
  | trans h1 h2 ih1 ih2 =>
    have hnd2 := ((h1.map Prod.fst).nodup_iff).mp hnd
    rw [ih1 hnd, ih2 hnd2]

theorem filterMap_sublist_mono {α β : Type} {f g : α → Option β}
    (h : ∀ x y, f x = some y → g x = some y) :
    ∀ l : List α, (l.filterMap f).Sublist (l.filterMap g) := by
  intro l
  induction l with
  | nil => simp
  | cons a t ih =>
    rw [List.filterMap_cons, List.filterMap_cons]
    cases hfa : f a with
    | none =>
      cases hga : g a with
      | none => exact ih
      | some z => exact ih.trans (List.sublist_cons_self z _)
    | some y =>
      rw [h a y hfa]
      exact ih.cons₂ y

theorem entryPair_key {v : Obj} {k : Str}
    (h : (entryPair v).map Prod.fst = some k) : entrySym v = some k := by
  cases hv : entrySym v with
  | none =>
    rw [entryPair, hv] at h
    simp at h
  | some k2 =>
    have h2 : (match entryEff k2 v with
        | EntryEff.bound s => some (k2, s)
        | EntryEff.boolean => some (k2, [])
        | EntryEff.dropped => none).map Prod.fst = some k := by
      rw [entryPair, hv] at h
      exact h
    cases heff : entryEff k2 v with
    | bound s =>
      rw [heff] at h2
      simp at h2
      rw [h2]
    | boolean =>
      rw [heff] at h2
      simp at h2
      rw [h2]
    | dropped =>
      rw [heff] at h2
      simp at h2

theorem aKeys_filterMap_nodup {e : List Obj}
    (hnd : (e.filterMap entrySym).Nodup) :
    ((e.filterMap entryPair).map Prod.fst).Nodup := by
  rw [List.map_filterMap]
  refine List.Nodup.sublist ?_ hnd
  exact filterMap_sublist_mono (fun v k h => entryPair_key h) e

theorem writeAttrsOut_keys_congr (sk : Sink) (st1 st2 : AttrState) :
    ∀ (keys : List Str) (pr : Printer),
      (∀ k ∈ keys, lookupA st1.a k = lookupA st2.a k ∧
        (k ∈ st1.empty ↔ k ∈ st2.empty)) →
      List.foldl
        (fun pr key =>
          let pr := pr.printStrings sk [[32], key]
          if key ∈ st1.empty then pr
          else
            ((pr.printString sk [61, 34]).printAttributeValue sk
              (lookupA st1.a key)).printString sk [34]) pr keys =
      List.foldl
        (fun pr key =>
          let pr := pr.printStrings sk [[32], key]
          if key ∈ st2.empty then pr
          else
            ((pr.printString sk [61, 34]).printAttributeValue sk
              (lookupA st2.a key)).printString sk [34]) pr keys := by
  intro keys
  induction keys with
  | nil => intro pr _; rfl
  | cons k rest ih =>
    intro pr hk
    rw [List.foldl_cons, List.foldl_cons]
    have hk1 := hk k (by simp)
    have hstep :
        (let pr := pr.printStrings sk [[32], k]
         if k ∈ st1.empty then pr
         else
           ((pr.printString sk [61, 34]).printAttributeValue sk
             (lookupA st1.a k)).printString sk [34]) =
        (let pr := pr.printStrings sk [[32], k]
         if k ∈ st2.empty then pr
         else
           ((pr.printString sk [61, 34]).printAttributeValue sk
             (lookupA st2.a k)).printString sk [34]) := by
      rw [hk1.1]
      by_cases he : k ∈ st1.empty
      · rw [if_pos he, if_pos (hk1.2.mp he)]
      · rw [if_neg he, if_neg (fun h2 => he (hk1.2.mpr h2))]
    rw [hstep]
    exact ih _ (fun k2 h2 => hk k2 (by simp [h2]))

/-- C4: surviving attributes are emitted in lexicographically sorted key
order — the emission loop runs over a key list sorted under the bytewise
order — and for any two attribute entry lists that are permutations of
each other with pairwise-distinct keys, the rendered attribute output is
identical. -/
theorem sxhtml_c4 :
    (∀ st : AttrState, List.Sorted (· ≤ ·) (sortedKeys st)) ∧
      (∀ (sk : Sink) (pr : Printer) (e1 e2 : List Obj), e1.Perm e2 →
        (e1.filterMap entrySym).Nodup →
        writeAttrsOut sk (procAttrs e1) pr =
          writeAttrsOut sk (procAttrs e2) pr) := by
  constructor
  · intro st
    exact List.sorted_insertionSort _ _
  · intro sk pr e1 e2 hperm hnd1
    have hnd2 : (e2.filterMap entrySym).Nodup :=
      ((hperm.filterMap entrySym).nodup_iff).mp hnd1
    have h1 := foldl_attrStep_nodup e1 ⟨[], [], []⟩ (by simp) hnd1
    have h2 := foldl_attrStep_nodup e2 ⟨[], [], []⟩ (by simp) hnd2
    simp only [List.nil_append] at h1 h2
    rw [procAttrs, h1, procAttrs, h2]
    have hpa : (e1.filterMap entryPair).Perm (e2.filterMap entryPair) :=
      hperm.filterMap _
    have hpb : (e1.filterMap boolKey).Perm (e2.filterMap boolKey) :=
      hperm.filterMap _
    have hnda : ((e1.filterMap entryPair).map Prod.fst).Nodup :=
      aKeys_filterMap_nodup hnd1
    have hkeys : sortedKeys ⟨e1.filterMap entrySym, e1.filterMap boolKey,
        e1.filterMap entryPair⟩ =
        sortedKeys ⟨e2.filterMap entrySym, e2.filterMap boolKey,
          e2.filterMap entryPair⟩ := by
      rw [sortedKeys, sortedKeys]
      exact @List.eq_of_perm_of_sorted Str (· ≤ ·) inferInstance _ _
        ((List.perm_insertionSort _ _).trans
          ((hpa.map Prod.fst).trans (List.perm_insertionSort _ _).symm))
        (List.sorted_insertionSort _ _) (List.sorted_insertionSort _ _)
    rw [writeAttrsOut, writeAttrsOut, hkeys]
    exact writeAttrsOut_keys_congr sk _ _ _ pr
      (fun k _ => ⟨lookupA_perm hpa hnda k, hpb.mem_iff⟩)

theorem sxhtml_c4_witness :
    writeAttrsOut okSink (procAttrs
        [Obj.pair (Obj.sym [97]) (Obj.str [49]),
         Obj.pair (Obj.sym [98]) (Obj.str [50])]) pr0 =
      writeAttrsOut okSink (procAttrs
        [Obj.pair (Obj.sym [98]) (Obj.str [50]),
         Obj.pair (Obj.sym [97]) (Obj.str [49])]) pr0 :=
  sxhtml_c4.2 okSink pr0
    [Obj.pair (Obj.sym [97]) (Obj.str [49]),
     Obj.pair (Obj.sym [98]) (Obj.str [50])]
    [Obj.pair (Obj.sym [98]) (Obj.str [50]),
     Obj.pair (Obj.sym [97]) (Obj.str [49])]
    (by decide) (by decide)

/-! Void elements (claim C6) and empty-container collapse (claim C7). -/

theorem void_not_ignorable : ∀ n ∈ voidTags, n ∉ ignoreEmptyTags := by decide

/-- The element list with everything after the attribute list removed. -/
def attrOnly (elems : Obj) : Obj :=
  match getAttributes elems with
  | some _ => Obj.pair (Obj.car elems) Obj.nil
  | none => Obj.nil

theorem getAttributes_some_ex {elems attrs : Obj}
    (h : getAttributes elems = some attrs) :
    ∃ c d, Obj.car elems = Obj.pair c d ∧ attrs = Obj.pair c d ∧
      c.isPairO = true := by
  cases hc : Obj.car elems with
  | pair c d =>
    by_cases hp : c.isPairO
    · refine ⟨c, d, rfl, ?_, hp⟩
      have h2 : (if c.isPairO = true then some (Obj.pair c d) else none) =
          some attrs := by
        rw [← h, getAttributes, hc]
      rw [if_pos hp] at h2
      injection h2 with h3
      exact h3.symm
    · exfalso
      have h2 : (if c.isPairO = true then some (Obj.pair c d) else none) =
          some attrs := by
        rw [← h, getAttributes, hc]
      rw [if_neg hp] at h2
      cases h2
  | nil =>
    exfalso
    have h2 : (none : Option Obj) = some attrs := by
      rw [← h, getAttributes, hc]
    cases h2
  | str s =>
    exfalso
    have h2 : (none : Option Obj) = some attrs := by
      rw [← h, getAttributes, hc]
    cases h2
  | num n =>
    exfalso
    have h2 : (none : Option Obj) = some attrs := by
      rw [← h, getAttributes, hc]
    cases h2
  | sym s =>
    exfalso
    have h2 : (none : Option Obj) = some attrs := by
      rw [← h, getAttributes, hc]
    cases h2

theorem getAttributes_attrOnly_some {elems attrs : Obj}
    (h : getAttributes elems = some attrs) :
    getAttributes (attrOnly elems) = some attrs := by
  obtain ⟨c, d, hc, ha, hcp⟩ := getAttributes_some_ex h
  rw [attrOnly, h]
  subst ha
  rw [hc]
  simp [getAttributes, Obj.car, hcp]

theorem writeTagRest_void {tagName : Str} (h : tagsIsVoid tagName = true)
    (g : Bool) (sk : Sink) (wn : Bool) (elems : Obj) (st : Enc) :
    writeTagRest g sk tagName wn elems st =
      { pr := st.pr.printString sk [62], lastWasTag := wn } := by
  rw [writeTagRest]
  simp [h]

/-- The opening-tag printer state of `writeTag` (newline logic included),
named for use in the branch equations below. -/
def wtPr1 (g : Bool) (sk : Sink) (symName : Str) (st : Enc) : Printer :=
  if (g && decide (symName ∈ nlTags)) &&
      (!st.lastWasTag || decide (symName ∈ allNLTags)) then
    st.pr.printStrings sk [bytes ['\n', '<'], symName]
  else st.pr.printStrings sk [[60], symName]

theorem writeTag_ignore {symName : Str} {elems : Obj}
    (h : symName ∈ ignoreEmptyTags ∧ ignoreEmptyStrings elems = none)
    (g : Bool) (sk : Sink) (st : Enc) :
    writeTag g sk symName elems st = st := by
  rw [writeTag, if_pos h]

theorem writeTag_attrs {symName : Str} {elems attrs : Obj}
    (hni : ¬(symName ∈ ignoreEmptyTags ∧ ignoreEmptyStrings elems = none))
    (hga : getAttributes elems = some attrs)
    (g : Bool) (sk : Sink) (st : Enc) :
    writeTag g sk symName elems st =
      writeTagRest g sk symName (g && decide (symName ∈ nlTags))
        (Obj.tail elems)
        { pr := writeAttributes sk attrs (wtPr1 g sk symName st),
          lastWasTag := st.lastWasTag } := by
  rw [writeTag, if_neg hni]
  simp only [hga, wtPr1]

theorem writeTag_noattrs {symName : Str} {elems : Obj}
    (hni : ¬(symName ∈ ignoreEmptyTags ∧ ignoreEmptyStrings elems = none))
    (hga : getAttributes elems = none)
    (g : Bool) (sk : Sink) (st : Enc) :
    writeTag g sk symName elems st =
      writeTagRest g sk symName (g && decide (symName ∈ nlTags)) elems
        { pr := wtPr1 g sk symName st, lastWasTag := st.lastWasTag } := by
  rw [writeTag, if_neg hni]
  simp only [hga, wtPr1]

/-- C6: for every tag in the void-element set, the children never reach
the output (rendering with any supplied children equals rendering with
only the attribute list kept), the body of `writeTag` stops right after
the `>` of the opening tag (no child content, no closing tag), and e.g.
a `br` element with a non-empty child renders as exactly `<br>`. -/
theorem sxhtml_c6 :
    (∀ (g : Bool) (sk : Sink) (symName : Str) (elems : Obj) (st : Enc),
        tagsIsVoid symName = true →
        writeTag g sk symName elems st =
          writeTag g sk symName (attrOnly elems) st) ∧
      (∀ (g : Bool) (sk : Sink) (tagName : Str) (wn : Bool) (elems : Obj)
          (st : Enc), tagsIsVoid tagName = true →
        writeTagRest g sk tagName wn elems st =
          { pr := st.pr.printString sk [62], lastWasTag := wn }) ∧
      renderOut false (Obj.pair (Obj.sym [98, 114])
        (Obj.pair (Obj.str [88]) Obj.nil)) = [60, 98, 114, 62] := by
  refine ⟨?_, fun g sk tagName wn elems st h =>
    writeTagRest_void h g sk wn elems st, ?_⟩
  · intro g sk symName elems st hv
    have hmem : symName ∈ voidTags := by
      rw [tagsIsVoid] at hv
      exact of_decide_eq_true hv
    have hni : symName ∉ ignoreEmptyTags := void_not_ignorable _ hmem
    cases hga : getAttributes elems with
    | some attrs =>
      rw [writeTag_attrs (fun hk => hni hk.1) hga,
        writeTag_attrs (fun hk => hni hk.1) (getAttributes_attrOnly_some hga),
        writeTagRest_void hv, writeTagRest_void hv]
    | none =>
      have hga2 : getAttributes (attrOnly elems) = none := by
        rw [attrOnly, hga]
        rfl
      rw [writeTag_noattrs (fun hk => hni hk.1) hga,
        writeTag_noattrs (fun hk => hni hk.1) hga2,
        writeTagRest_void hv, writeTagRest_void hv]
  · simp [renderOut, WriteHTMLEnc, enc0, pr0, generate, writeTag,
      writeTagRest, Obj.tail, Obj.cdr, Obj.isPairO, Obj.car, getAttributes,
      ignoreEmptyStrings, tagsIsVoid, voidTags, nlTags, ignoreEmptyTags,
      allNLTags, bytes, Printer.printStrings, Printer.printStringsLoop,
      Printer.printString, Printer.okSink_accept, Printer.okSink_errAt,
      okSink]

theorem sxhtml_c6_witness :
    writeTag false okSink [98, 114] (Obj.pair (Obj.str [88]) Obj.nil) enc0 =
      writeTag false okSink [98, 114]
        (attrOnly (Obj.pair (Obj.str [88]) Obj.nil)) enc0 :=
  sxhtml_c6.1 false okSink [98, 114] (Obj.pair (Obj.str [88]) Obj.nil) enc0
    (by decide)

theorem ignoreEmptyStrings_of_allEmpty :
    ∀ (elems : Obj), (∀ c ∈ Obj.values elems, c = Obj.str []) →
      ignoreEmptyStrings elems = none := by
  intro elems
  induction elems with
  | pair a b iha ihb =>
    intro h
    have ha : a = Obj.str [] := h a (by simp [Obj.values])
    subst ha
    rw [ignoreEmptyStrings]
    simp only [Obj.getStr, if_pos rfl]
    exact ihb (fun c hc => h c (by simp [Obj.values]; exact Or.inr hc))
  | nil => intro _; rfl
  | str s => intro _; rfl
  | num n => intro _; rfl
  | sym s => intro _; rfl

/-- C7: for every tag in the ignorable-when-empty set, if every remaining
child is absent or a text atom holding only the empty string, the element
is skipped entirely (the encoder state is unchanged: no open tag, no
attributes, no children, no close tag); `(p)` renders as the empty string,
while `(div "" (p "A"))` renders as `<div><p>A</p></div>` because the
non-empty descendant disqualifies the collapse. -/
theorem sxhtml_c7 :
    (∀ (g : Bool) (sk : Sink) (symName : Str) (elems : Obj) (st : Enc),
        symName ∈ ignoreEmptyTags →
        (∀ c ∈ Obj.values elems, c = Obj.str []) →
        writeTag g sk symName elems st = st) ∧
      renderOut false (Obj.pair (Obj.sym [112]) Obj.nil) = [] ∧
      renderOut false (Obj.pair (Obj.sym [100, 105, 118])
          (Obj.pair (Obj.str [])
            (Obj.pair (Obj.pair (Obj.sym [112])
              (Obj.pair (Obj.str [65]) Obj.nil)) Obj.nil))) =
        [60, 100, 105, 118, 62, 60, 112, 62, 65, 60, 47, 112, 62, 60, 47,
         100, 105, 118, 62] := by
  refine ⟨?_, ?_, ?_⟩
  · intro g sk symName elems st h1 h2
    exact writeTag_ignore ⟨h1, ignoreEmptyStrings_of_allEmpty elems h2⟩ g sk st
  · simp [renderOut, WriteHTMLEnc, enc0, pr0, generate, writeTag,
      writeTagRest, Obj.tail, Obj.cdr, Obj.isPairO, Obj.car, getAttributes,
      ignoreEmptyStrings, Obj.getStr, tagsIsVoid, voidTags, nlTags,
      ignoreEmptyTags, allNLTags, bytes, Printer.printStrings,
      Printer.printStringsLoop, Printer.printString, Printer.okSink_accept,
      Printer.okSink_errAt, okSink]
  · simp [renderOut, WriteHTMLEnc, enc0, pr0, generate, generateList,
      writeTag, writeTagRest, Obj.tail, Obj.cdr, Obj.isPairO, Obj.car,
      getAttributes, ignoreEmptyStrings, Obj.getStr, tagsIsVoid, voidTags,
      nlTags, ignoreEmptyTags, allNLTags, bytes, Printer.printStrings,
      Printer.printStringsLoop, Printer.printString, Printer.printHTML,
      htmlEscapeStr, htmlEscapeByte, Printer.okSink_accept,
      Printer.okSink_errAt, okSink]

theorem sxhtml_c7_witness :
    writeTag false okSink [112] Obj.nil enc0 = enc0 :=
  sxhtml_c7.1 false okSink [112] Obj.nil enc0 (by decide)
    (fun c hc => absurd hc (by simp [Obj.values]))

/-- C9: the comment escaping replaces `--` by `-&#45;` so that the escaped
body of a comment never contains two adjacent dashes, while the comment
delimiters themselves are written unescaped: `(@@ "esc -->")` renders as
`<!-- esc -&#45;> -->`. -/
theorem sxhtml_c9 :
    (∀ s : Str, hasDD (commentEscape s) = false) ∧
      renderOut false (Obj.pair (Obj.sym [64, 64])
          (Obj.pair (Obj.str [101, 115, 99, 32, 45, 45, 62]) Obj.nil)) =
        [60, 33, 45, 45, 32, 101, 115, 99, 32, 45, 38, 35, 52, 53, 59, 62,
         32, 45, 45, 62] := by
  refine ⟨commentEscape_noDD, ?_⟩
  simp [renderOut, WriteHTMLEnc, enc0, pr0, generate, writeCommentP,
    Obj.tail, Obj.cdr, Obj.isPairO, Obj.values, goString, commentEscape,
    bytes, Printer.printComment, Printer.printString, Printer.okSink_accept,
    Printer.okSink_errAt, okSink]

/-! Claim C1: the sticky error.  Once the printer has recorded an error,
every printer operation leaves the printer untouched (no write call is
issued, no byte reaches the sink), and on an error-free printer the
recorded error is always the first error among the issued calls. -/

theorem foldl_errSome {α : Type} {step : Printer → α → Printer}
    (hs : ∀ (b : α) (p : Printer) (e : Nat), p.err = some e → step p b = p) :
    ∀ (l : List α) (p : Printer) (e : Nat), p.err = some e →
      List.foldl step p l = p := by
  intro l
  induction l with
  | nil => intro p e _; rfl
  | cons b rest ih =>
    intro p e hp
    rw [List.foldl_cons, hs b p e hp]
    exact ih p e hp

theorem foldl_inv {α : Type} {sk : Sink} {step : Printer → α → Printer}
    (hs : ∀ (b : α) (p : Printer), PrInv sk p → PrInv sk (step p b)) :
    ∀ (l : List α) (p : Printer), PrInv sk p →
      PrInv sk (List.foldl step p l) := by
  intro l
  induction l with
  | nil => intro p hp; exact hp
  | cons b rest ih =>
    intro p hp
    rw [List.foldl_cons]
    exact ih _ (hs b p hp)

theorem writeNoEscapeP_errSome {p : Printer} {e : Nat} (hp : p.err = some e)
    (sk : Sink) (elems : Obj) : writeNoEscapeP sk elems p = p := by
  rw [writeNoEscapeP]
  refine foldl_errSome ?_ _ p e hp
  intro b q e2 hq
  cases b.getStr with
  | some s => exact Printer.printString_errSome hq sk s
  | none => rfl

theorem writeNoEscapeP_inv {sk : Sink} {p : Printer} (hp : PrInv sk p)
    (elems : Obj) : PrInv sk (writeNoEscapeP sk elems p) := by
  rw [writeNoEscapeP]
  refine foldl_inv ?_ _ p hp
  intro b q hq
  cases b.getStr with
  | some s => exact Printer.printString_inv hq s
  | none => exact hq

theorem writeCDATAP_errSome {p : Printer} {e : Nat} (hp : p.err = some e)
    (sk : Sink) (elems : Obj) : writeCDATAP sk elems p = p := by
  rw [writeCDATAP, Printer.printString_errSome hp,
    writeNoEscapeP_errSome hp, Printer.printString_errSome hp]

theorem writeCDATAP_inv {sk : Sink} {p : Printer} (hp : PrInv sk p)
    (elems : Obj) : PrInv sk (writeCDATAP sk elems p) :=
  Printer.printString_inv
    (writeNoEscapeP_inv (Printer.printString_inv hp _) elems) _

theorem writeCommentP_errSome {p : Printer} {e : Nat} (hp : p.err = some e)
    (sk : Sink) (elems : Obj) : writeCommentP sk elems p = p := by
  rw [writeCommentP, Printer.printString_errSome hp]
  rw [foldl_errSome (fun b q e2 hq =>
    by rw [Printer.printComment_errSome
        (by rw [Printer.printString_errSome hq]; exact hq),
      Printer.printString_errSome hq]) _ p e hp]
  exact Printer.printString_errSome hp sk _

theorem writeCommentP_inv {sk : Sink} {p : Printer} (hp : PrInv sk p)
    (elems : Obj) : PrInv sk (writeCommentP sk elems p) := by
  rw [writeCommentP]
  refine Printer.printString_inv (foldl_inv ?_ _ _
    (Printer.printString_inv hp _)) _
  intro b q hq
  exact Printer.printComment_inv (Printer.printString_inv hq _) _

theorem writeCommentMLP_errSome {p : Printer} {e : Nat} (hp : p.err = some e)
    (sk : Sink) (elems : Obj) : writeCommentMLP sk elems p = p := by
  rw [writeCommentMLP, Printer.printString_errSome hp]
  rw [foldl_errSome (fun b q e2 hq =>
    by rw [Printer.printComment_errSome
        (by rw [Printer.printString_errSome hq]; exact hq),
      Printer.printString_errSome hq]) _ p e hp]
  exact Printer.printString_errSome hp sk _

theorem writeCommentMLP_inv {sk : Sink} {p : Printer} (hp : PrInv sk p)
    (elems : Obj) : PrInv sk (writeCommentMLP sk elems p) := by
  rw [writeCommentMLP]
  refine Printer.printString_inv (foldl_inv ?_ _ _
    (Printer.printString_inv hp _)) _
  intro b q hq
  exact Printer.printComment_inv (Printer.printString_inv hq _) _

theorem writeAttrsOut_errSome {p : Printer} {e : Nat} (hp : p.err = some e)
    (sk : Sink) (st : AttrState) : writeAttrsOut sk st p = p := by
  rw [writeAttrsOut]
  refine foldl_errSome ?_ _ p e hp
  intro key q e2 hq
  rw [Printer.printStrings_errSome hq]
  by_cases hke : key ∈ st.empty
  · rw [if_pos hke]
  · rw [if_neg hke, Printer.printString_errSome hq,
      Printer.printAttributeValue_errSome hq, Printer.printString_errSome hq]

theorem writeAttrsOut_inv {sk : Sink} {p : Printer} (hp : PrInv sk p)
    (st : AttrState) : PrInv sk (writeAttrsOut sk st p) := by
  rw [writeAttrsOut]
  refine foldl_inv ?_ _ p hp
  intro key q hq
  by_cases hke : key ∈ st.empty
  · simp only [if_pos hke]
    exact Printer.printStrings_inv hq _
  · simp only [if_neg hke]
    exact Printer.printString_inv (Printer.printAttributeValue_inv
      (Printer.printString_inv (Printer.printStrings_inv hq _) _) _) _

theorem writeAttributes_errSome {p : Printer} {e : Nat} (hp : p.err = some e)
    (sk : Sink) (attrs : Obj) : writeAttributes sk attrs p = p :=
  writeAttrsOut_errSome hp sk _

theorem writeAttributes_inv {sk : Sink} {p : Printer} (hp : PrInv sk p)
    (attrs : Obj) : PrInv sk (writeAttributes sk attrs p) :=
  writeAttrsOut_inv hp _

theorem wtPr1_errSome {st : Enc} {e : Nat} (hp : st.pr.err = some e)
    (g : Bool) (sk : Sink) (symName : Str) :
    wtPr1 g sk symName st = st.pr := by
  rw [wtPr1]
  split <;> exact Printer.printStrings_errSome hp sk _

theorem wtPr1_inv {sk : Sink} {st : Enc} (hp : PrInv sk st.pr) (g : Bool)
    (symName : Str) : PrInv sk (wtPr1 g sk symName st) := by
  rw [wtPr1]
  split <;> exact Printer.printStrings_inv hp _

theorem Obj.sizeOf_pos (o : Obj) : 0 < sizeOf o := by
  cases o <;> simp <;> omega

theorem generate_str (g : Bool) (sk : Sink) (s : Str) (st : Enc) :
    generate g sk (Obj.str s) st = ⟨st.pr.printHTML sk s, false⟩ := by
  rw [generate]

theorem generate_num (g : Bool) (sk : Sink) (n : Int) (st : Enc) :
    generate g sk (Obj.num n) st =
      ⟨st.pr.printHTML sk (intDecimal n), false⟩ := by
  rw [generate]

theorem generate_symtop (g : Bool) (sk : Sink) (s : Str) (st : Enc) :
    generate g sk (Obj.sym s) st = ⟨st.pr, false⟩ := by
  rw [generate]

theorem generate_niltop (g : Bool) (sk : Sink) (st : Enc) :
    generate g sk Obj.nil st = ⟨st.pr, false⟩ := by
  rw [generate]

theorem generate_cdata (g : Bool) (sk : Sink) {s : Str} (t : Obj) (st : Enc)
    (h1 : List.getD s 0 0 = 64) (h2 : s = bytes ['@', 'C']) :
    generate g sk (Obj.pair (Obj.sym s) t) st =
      ⟨writeCDATAP sk (Obj.tail (Obj.pair (Obj.sym s) t)) st.pr, false⟩ := by
  rw [generate]
  simp only [h1, if_pos h2, if_true]

theorem generate_noescape (g : Bool) (sk : Sink) {s : Str} (t : Obj)
    (st : Enc) (h1 : List.getD s 0 0 = 64) (n1 : ¬s = bytes ['@', 'C'])
    (h2 : s = bytes ['@', 'H']) :
    generate g sk (Obj.pair (Obj.sym s) t) st =
      ⟨writeNoEscapeP sk (Obj.tail (Obj.pair (Obj.sym s) t)) st.pr,
        false⟩ := by
  rw [generate]
  simp only [h1, if_neg n1, if_pos h2, if_true]

theorem generate_comment (g : Bool) (sk : Sink) {s : Str} (t : Obj)
    (st : Enc) (h1 : List.getD s 0 0 = 64) (n1 : ¬s = bytes ['@', 'C'])
    (n2 : ¬s = bytes ['@', 'H']) (h2 : s = bytes ['@', '@']) :
    generate g sk (Obj.pair (Obj.sym s) t) st =
      ⟨writeCommentP sk (Obj.tail (Obj.pair (Obj.sym s) t)) st.pr,
        false⟩ := by
  rw [generate]
  simp only [h1, if_neg n1, if_neg n2, if_pos h2, if_true]

theorem generate_commentml (g : Bool) (sk : Sink) {s : Str} (t : Obj)
    (st : Enc) (h1 : List.getD s 0 0 = 64) (n1 : ¬s = bytes ['@', 'C'])
    (n2 : ¬s = bytes ['@', 'H']) (n3 : ¬s = bytes ['@', '@'])
    (h2 : s = bytes ['@', '@', '@']) :
    generate g sk (Obj.pair (Obj.sym s) t) st =
      ⟨writeCommentMLP sk (Obj.tail (Obj.pair (Obj.sym s) t)) st.pr,
        false⟩ := by
  rw [generate]
  simp only [h1, if_neg n1, if_neg n2, if_neg n3, if_pos h2, if_true]

theorem generate_splice (g : Bool) (sk : Sink) {s : Str} (t : Obj) (st : Enc)
    (h1 : List.getD s 0 0 = 64) (n1 : ¬s = bytes ['@', 'C'])
    (n2 : ¬s = bytes ['@', 'H']) (n3 : ¬s = bytes ['@', '@'])
    (n4 : ¬s = bytes ['@', '@', '@']) (h2 : s = bytes ['@', 'L']) :
    generate g sk (Obj.pair (Obj.sym s) t) st =
      { generateList g sk (Obj.tail (Obj.pair (Obj.sym s) t)) st with
          lastWasTag := false } := by
  rw [generate]
  simp only [h1, if_neg n1, if_neg n2, if_neg n3, if_neg n4, if_pos h2,
    if_true]

theorem generate_doctype (g : Bool) (sk : Sink) {s : Str} (t : Obj)
    (st : Enc) (h1 : List.getD s 0 0 = 64) (n1 : ¬s = bytes ['@', 'C'])
    (n2 : ¬s = bytes ['@', 'H']) (n3 : ¬s = bytes ['@', '@'])
    (n4 : ¬s = bytes ['@', '@', '@']) (n5 : ¬s = bytes ['@', 'L'])
    (h2 : s = bytes ['@', '@', '@', '@']) :
    generate g sk (Obj.pair (Obj.sym s) t) st =
      { writeDoctype g sk (Obj.tail (Obj.pair (Obj.sym s) t)) st with
          lastWasTag := false } := by
  rw [generate]
  simp only [h1, if_neg n1, if_neg n2, if_neg n3, if_neg n4, if_neg n5,
    if_pos h2, if_true]

theorem generate_deftag (g : Bool) (sk : Sink) {s : Str} (t : Obj) (st : Enc)
    (h1 : List.getD s 0 0 = 64) (n1 : ¬s = bytes ['@', 'C'])
    (n2 : ¬s = bytes ['@', 'H']) (n3 : ¬s = bytes ['@', '@'])
    (n4 : ¬s = bytes ['@', '@', '@']) (n5 : ¬s = bytes ['@', 'L'])
    (n6 : ¬s = bytes ['@', '@', '@', '@']) :
    generate g sk (Obj.pair (Obj.sym s) t) st =
      writeTag g sk s (Obj.tail (Obj.pair (Obj.sym s) t)) st := by
  rw [generate]
  simp only [h1, if_neg n1, if_neg n2, if_neg n3, if_neg n4, if_neg n5,
    if_neg n6, if_true]

theorem generate_tag (g : Bool) (sk : Sink) {s : Str} (t : Obj) (st : Enc)
    (h1 : ¬List.getD s 0 0 = 64) :
    generate g sk (Obj.pair (Obj.sym s) t) st =
      writeTag g sk s (Obj.tail (Obj.pair (Obj.sym s) t)) st := by
  rw [generate]
  simp only [if_neg h1]

theorem writeTagRest_nonvoid {tagName : Str} (h : ¬tagsIsVoid tagName = true)
    (g : Bool) (sk : Sink) (wn : Bool) (elems : Obj) (st : Enc) :
    writeTagRest g sk tagName wn elems st =
      ⟨if wn then
          (generateList g sk elems
            ⟨st.pr.printString sk [62], st.lastWasTag⟩).pr.printStrings sk
            [[60, 47], tagName, bytes ['>', '\n']]
        else
          (generateList g sk elems
            ⟨st.pr.printString sk [62], st.lastWasTag⟩).pr.printStrings sk
            [[60, 47], tagName, [62]], wn⟩ := by
  rw [writeTagRest]
  simp [h]

set_option maxHeartbeats 1000000 in
/-- Error-freeze and first-error invariant for all five mutually recursive
encoder functions, by induction on a size bound for the object argument. -/
theorem encoder_good (g : Bool) (sk : Sink) : ∀ n : Nat,
    (∀ lst : Obj, sizeOf lst ≤ n →
      (∀ (st : Enc) (e : Nat), st.pr.err = some e →
        (generateList g sk lst st).pr = st.pr) ∧
      (∀ st : Enc, PrInv sk st.pr →
        PrInv sk (generateList g sk lst st).pr)) ∧
    (∀ (tagName : Str) (wn : Bool) (elems : Obj), sizeOf elems ≤ n →
      (∀ (st : Enc) (e : Nat), st.pr.err = some e →
        (writeTagRest g sk tagName wn elems st).pr = st.pr) ∧
      (∀ st : Enc, PrInv sk st.pr →
        PrInv sk (writeTagRest g sk tagName wn elems st).pr)) ∧
    (∀ (symName : Str) (elems : Obj), sizeOf elems ≤ n →
      (∀ (st : Enc) (e : Nat), st.pr.err = some e →
        (writeTag g sk symName elems st).pr = st.pr) ∧
      (∀ st : Enc, PrInv sk st.pr →
        PrInv sk (writeTag g sk symName elems st).pr)) ∧
    (∀ elems : Obj, sizeOf elems ≤ n →
      (∀ (st : Enc) (e : Nat), st.pr.err = some e →
        (writeDoctype g sk elems st).pr = st.pr) ∧
      (∀ st : Enc, PrInv sk st.pr →
        PrInv sk (writeDoctype g sk elems st).pr)) ∧
    (∀ obj : Obj, sizeOf obj ≤ n →
      (∀ (st : Enc) (e : Nat), st.pr.err = some e →
        (generate g sk obj st).pr = st.pr) ∧
      (∀ st : Enc, PrInv sk st.pr →
        PrInv sk (generate g sk obj st).pr)) := by
  intro n
  induction n with
  | zero =>
    exact ⟨fun lst hsz => absurd hsz (by have := Obj.sizeOf_pos lst; omega),
      fun tagName wn elems hsz =>
        absurd hsz (by have := Obj.sizeOf_pos elems; omega),
      fun symName elems hsz =>
        absurd hsz (by have := Obj.sizeOf_pos elems; omega),
      fun elems hsz => absurd hsz (by have := Obj.sizeOf_pos elems; omega),
      fun obj hsz => absurd hsz (by have := Obj.sizeOf_pos obj; omega)⟩
  | succ n ih =>
    obtain ⟨ihL, ihR, ihT, ihD, ihG⟩ := ih
    have HgL : ∀ lst : Obj, sizeOf lst ≤ n + 1 →
        (∀ (st : Enc) (e : Nat), st.pr.err = some e →
          (generateList g sk lst st).pr = st.pr) ∧
        (∀ st : Enc, PrInv sk st.pr →
          PrInv sk (generateList g sk lst st).pr) := by
      intro lst hsz
      cases lst with
      | pair a b =>
        have hsa : sizeOf a ≤ n := by
          have hb := Obj.sizeOf_pos b; simp at hsz; omega
        have hsb : sizeOf b ≤ n := by
          have ha := Obj.sizeOf_pos a; simp at hsz; omega
        have heq : ∀ st : Enc, generateList g sk (Obj.pair a b) st =
            generateList g sk b (generate g sk a st) := fun st => by
          rw [generateList]
        constructor
        · intro st e hp
          rw [heq st]
          have h1 := (ihG a hsa).1 st e hp
          have h2 := (ihL b hsb).1 (generate g sk a st) e
            (by rw [h1]; exact hp)
          rw [h2, h1]
        · intro st hp
          rw [heq st]
          exact (ihL b hsb).2 _ ((ihG a hsa).2 st hp)
      | str s =>
        have heq : ∀ st : Enc, generateList g sk (Obj.str s) st = st :=
          fun st => by rw [generateList] <;> simp
        exact ⟨fun st e hp => by rw [heq st],
          fun st hp => by rw [heq st]; exact hp⟩
      | num m =>
        have heq : ∀ st : Enc, generateList g sk (Obj.num m) st = st :=
          fun st => by rw [generateList] <;> simp
        exact ⟨fun st e hp => by rw [heq st],
          fun st hp => by rw [heq st]; exact hp⟩
      | sym s =>
        have heq : ∀ st : Enc, generateList g sk (Obj.sym s) st = st :=
          fun st => by rw [generateList] <;> simp
        exact ⟨fun st e hp => by rw [heq st],
          fun st hp => by rw [heq st]; exact hp⟩
      | nil =>
        have heq : ∀ st : Enc, generateList g sk Obj.nil st = st :=
          fun st => by rw [generateList] <;> simp
        exact ⟨fun st e hp => by rw [heq st],
          fun st hp => by rw [heq st]; exact hp⟩
    have HwR : ∀ (tagName : Str) (wn : Bool) (elems : Obj),
        sizeOf elems ≤ n + 1 →
        (∀ (st : Enc) (e : Nat), st.pr.err = some e →
          (writeTagRest g sk tagName wn elems st).pr = st.pr) ∧
        (∀ st : Enc, PrInv sk st.pr →
          PrInv sk (writeTagRest g sk tagName wn elems st).pr) := by
      intro tagName wn elems hsz
      constructor
      · intro st e hp
        by_cases hv : tagsIsVoid tagName = true
        · rw [writeTagRest_void hv g sk wn elems st]
          exact Printer.printString_errSome hp sk [62]
        · rw [writeTagRest_nonvoid hv g sk wn elems st]
          by_cases hw : wn = true
          · rw [if_pos hw]
            rw [Printer.printString_errSome hp sk [62]]
            rw [(HgL elems hsz).1 ⟨st.pr, st.lastWasTag⟩ e hp]
            exact Printer.printStrings_errSome hp sk _
          · rw [if_neg hw]
            rw [Printer.printString_errSome hp sk [62]]
            rw [(HgL elems hsz).1 ⟨st.pr, st.lastWasTag⟩ e hp]
            exact Printer.printStrings_errSome hp sk _
      · intro st hp
        by_cases hv : tagsIsVoid tagName = true
        · rw [writeTagRest_void hv g sk wn elems st]
          exact Printer.printString_inv hp [62]
        · rw [writeTagRest_nonvoid hv g sk wn elems st]
          have h4 := (HgL elems hsz).2
            ⟨st.pr.printString sk [62], st.lastWasTag⟩
            (Printer.printString_inv hp [62])
          by_cases hw : wn = true
          · rw [if_pos hw]
            exact Printer.printStrings_inv h4 _
          · rw [if_neg hw]
            exact Printer.printStrings_inv h4 _
    have HwT : ∀ (symName : Str) (elems : Obj), sizeOf elems ≤ n + 1 →
        (∀ (st : Enc) (e : Nat), st.pr.err = some e →
          (writeTag g sk symName elems st).pr = st.pr) ∧
        (∀ st : Enc, PrInv sk st.pr →
          PrInv sk (writeTag g sk symName elems st).pr) := by
      intro symName elems hsz
      have htl : sizeOf (Obj.tail elems) ≤ n + 1 :=
        le_trans (Obj.sizeOf_tail_le elems) hsz
      constructor
      · intro st e hp
        by_cases hig : symName ∈ ignoreEmptyTags ∧
            ignoreEmptyStrings elems = none
        · rw [writeTag_ignore hig g sk st]
        · cases hga : getAttributes elems with
          | some attrs =>
            rw [writeTag_attrs hig hga g sk st]
            rw [wtPr1_errSome hp g sk symName]
            rw [writeAttributes_errSome hp sk attrs]
            exact (HwR symName (g && decide (symName ∈ nlTags))
              (Obj.tail elems) htl).1 ⟨st.pr, st.lastWasTag⟩ e hp
          | none =>
            rw [writeTag_noattrs hig hga g sk st]
            rw [wtPr1_errSome hp g sk symName]
            exact (HwR symName (g && decide (symName ∈ nlTags)) elems
              hsz).1 ⟨st.pr, st.lastWasTag⟩ e hp
      · intro st hp
        by_cases hig : symName ∈ ignoreEmptyTags ∧
            ignoreEmptyStrings elems = none
        · rw [writeTag_ignore hig g sk st]
          exact hp
        · cases hga : getAttributes elems with
          | some attrs =>
            rw [writeTag_attrs hig hga g sk st]
            exact (HwR symName (g && decide (symName ∈ nlTags))
              (Obj.tail elems) htl).2
              ⟨writeAttributes sk attrs (wtPr1 g sk symName st),
                st.lastWasTag⟩
              (writeAttributes_inv (wtPr1_inv hp g symName) attrs)
          | none =>
            rw [writeTag_noattrs hig hga g sk st]
            exact (HwR symName (g && decide (symName ∈ nlTags)) elems
              hsz).2 ⟨wtPr1 g sk symName st, st.lastWasTag⟩
              (wtPr1_inv hp g symName)
    have HD : ∀ elems : Obj, sizeOf elems ≤ n + 1 →
        (∀ (st : Enc) (e : Nat), st.pr.err = some e →
          (writeDoctype g sk elems st).pr = st.pr) ∧
        (∀ st : Enc, PrInv sk st.pr →
          PrInv sk (writeDoctype g sk elems st).pr) := by
      intro elems hsz
      have heq : ∀ st : Enc, writeDoctype g sk elems st =
          generateList g sk elems
            { st with
                pr := st.pr.printString sk
                  (bytes ['<','!','D','O','C','T','Y','P','E',' ',
                    'h','t','m','l','>','\n']) } := fun st => by
        rw [writeDoctype]
      constructor
      · intro st e hp
        rw [heq st, Printer.printString_errSome hp]
        exact (HgL elems hsz).1 _ e hp
      · intro st hp
        rw [heq st]
        exact (HgL elems hsz).2 _ (Printer.printString_inv hp _)
    have HG : ∀ obj : Obj, sizeOf obj ≤ n + 1 →
        (∀ (st : Enc) (e : Nat), st.pr.err = some e →
          (generate g sk obj st).pr = st.pr) ∧
        (∀ st : Enc, PrInv sk st.pr →
          PrInv sk (generate g sk obj st).pr) := by
      intro obj hsz
      cases obj with
      | str s =>
        exact ⟨fun st e hp => by
            rw [generate_str g sk s st]
            exact Printer.printHTML_errSome hp sk s,
          fun st hp => by
            rw [generate_str g sk s st]
            exact Printer.printHTML_inv hp s⟩
      | num m =>
        exact ⟨fun st e hp => by
            rw [generate_num g sk m st]
            exact Printer.printHTML_errSome hp sk (intDecimal m),
          fun st hp => by
            rw [generate_num g sk m st]
            exact Printer.printHTML_inv hp (intDecimal m)⟩
      | sym s =>
        exact ⟨fun st e hp => by rw [generate_symtop g sk s st],
          fun st hp => by rw [generate_symtop g sk s st]; exact hp⟩
      | nil =>
        exact ⟨fun st e hp => by rw [generate_niltop g sk st],
          fun st hp => by rw [generate_niltop g sk st]; exact hp⟩
      | pair hd t =>
        have htl : sizeOf (Obj.tail (Obj.pair hd t)) ≤ n + 1 :=
          le_trans (Obj.sizeOf_tail_le _) hsz
        cases hd with
        | sym s =>
          by_cases h64 : List.getD s 0 0 = 64
          · by_cases hC : s = bytes ['@', 'C']
            · exact ⟨fun st e hp => by
                  rw [generate_cdata g sk t st h64 hC]
                  exact writeCDATAP_errSome hp sk _,
                fun st hp => by
                  rw [generate_cdata g sk t st h64 hC]
                  exact writeCDATAP_inv hp _⟩
            · by_cases hH : s = bytes ['@', 'H']
              · exact ⟨fun st e hp => by
                    rw [generate_noescape g sk t st h64 hC hH]
                    exact writeNoEscapeP_errSome hp sk _,
                  fun st hp => by
                    rw [generate_noescape g sk t st h64 hC hH]
                    exact writeNoEscapeP_inv hp _⟩
              · by_cases hA2 : s = bytes ['@', '@']
                · exact ⟨fun st e hp => by
                      rw [generate_comment g sk t st h64 hC hH hA2]
                      exact writeCommentP_errSome hp sk _,
                    fun st hp => by
                      rw [generate_comment g sk t st h64 hC hH hA2]
                      exact writeCommentP_inv hp _⟩
                · by_cases hA3 : s = bytes ['@', '@', '@']
                  · exact ⟨fun st e hp => by
                        rw [generate_commentml g sk t st h64 hC hH hA2 hA3]
                        exact writeCommentMLP_errSome hp sk _,
                      fun st hp => by
                        rw [generate_commentml g sk t st h64 hC hH hA2 hA3]
                        exact writeCommentMLP_inv hp _⟩
                  · by_cases hL : s = bytes ['@', 'L']
                    · exact ⟨fun st e hp => by
                          rw [generate_splice g sk t st h64 hC hH hA2
                            hA3 hL]
                          exact (HgL (Obj.tail (Obj.pair (Obj.sym s) t))
                            htl).1 st e hp,
                        fun st hp => by
                          rw [generate_splice g sk t st h64 hC hH hA2
                            hA3 hL]
                          exact (HgL (Obj.tail (Obj.pair (Obj.sym s) t))
                            htl).2 st hp⟩
                    · by_cases hD4 : s = bytes ['@', '@', '@', '@']
                      · exact ⟨fun st e hp => by
                            rw [generate_doctype g sk t st h64 hC hH hA2
                              hA3 hL hD4]
                            exact (HD (Obj.tail (Obj.pair (Obj.sym s) t))
                              htl).1 st e hp,
                          fun st hp => by
                            rw [generate_doctype g sk t st h64 hC hH hA2
                              hA3 hL hD4]
                            exact (HD (Obj.tail (Obj.pair (Obj.sym s) t))
                              htl).2 st hp⟩
                      · exact ⟨fun st e hp => by
                            rw [generate_deftag g sk t st h64 hC hH hA2
                              hA3 hL hD4]
                            exact (HwT s (Obj.tail (Obj.pair (Obj.sym s)
                              t)) htl).1 st e hp,
                          fun st hp => by
                            rw [generate_deftag g sk t st h64 hC hH hA2
                              hA3 hL hD4]
                            exact (HwT s (Obj.tail (Obj.pair (Obj.sym s)
                              t)) htl).2 st hp⟩
          · exact ⟨fun st e hp => by
                rw [generate_tag g sk t st h64]
                exact (HwT s (Obj.tail (Obj.pair (Obj.sym s) t))
                  htl).1 st e hp,
              fun st hp => by
                rw [generate_tag g sk t st h64]
                exact (HwT s (Obj.tail (Obj.pair (Obj.sym s) t))
                  htl).2 st hp⟩
        | str s2 =>
          have heq : ∀ st : Enc,
              generate g sk (Obj.pair (Obj.str s2) t) st = st :=
            fun st => by rw [generate] <;> simp
          exact ⟨fun st e hp => by rw [heq st],
            fun st hp => by rw [heq st]; exact hp⟩
        | num m2 =>
          have heq : ∀ st : Enc,
              generate g sk (Obj.pair (Obj.num m2) t) st = st :=
            fun st => by rw [generate] <;> simp
          exact ⟨fun st e hp => by rw [heq st],
            fun st hp => by rw [heq st]; exact hp⟩
        | nil =>
          have heq : ∀ st : Enc,
              generate g sk (Obj.pair Obj.nil t) st = st :=
            fun st => by rw [generate] <;> simp
          exact ⟨fun st e hp => by rw [heq st],
            fun st hp => by rw [heq st]; exact hp⟩
        | pair a b =>
          have heq : ∀ st : Enc,
              generate g sk (Obj.pair (Obj.pair a b) t) st = st :=
            fun st => by rw [generate] <;> simp
          exact ⟨fun st e hp => by rw [heq st],
            fun st hp => by rw [heq st]; exact hp⟩
    exact ⟨HgL, HwR, HwT, HD, HG⟩

/-- C1: once a write failure from the sink has been recorded, every
subsequent write is skipped entirely — the printer component (calls issued,
output bytes, length, error) never changes again although the traversal of
the remaining tree still runs to completion — and the error returned by the
render entry points `WriteHTML` / `WriteListHTML` is the first error the
sink reported. -/
theorem sxhtml_c1 :
    (∀ (g : Bool) (sk : Sink) (obj : Obj) (st : Enc) (e : Nat),
        st.pr.err = some e → (generate g sk obj st).pr = st.pr) ∧
    (∀ (g : Bool) (sk : Sink) (obj : Obj),
        (WriteHTML g sk obj).2 =
          firstErr sk (WriteHTMLEnc g sk obj).pr.calls) ∧
    (∀ (g : Bool) (sk : Sink) (lst : Obj),
        (WriteListHTML g sk lst).2 =
          firstErr sk (WriteListHTMLEnc g sk lst).pr.calls) := by
  refine ⟨?_, ?_, ?_⟩
  · intro g sk obj st e hp
    exact ((encoder_good g sk (sizeOf obj)).2.2.2.2 obj (Nat.le_refl _)).1
      st e hp
  · intro g sk obj
    exact ((encoder_good g sk (sizeOf obj)).2.2.2.2 obj (Nat.le_refl _)).2
      enc0 rfl
  · intro g sk lst
    exact ((encoder_good g sk (sizeOf lst)).1 lst (Nat.le_refl _)).2 enc0 rfl

/-- Witness for C1: a printer that already recorded error 7 after 3 calls
is left untouched by a further `generate` of a string object. -/
theorem sxhtml_c1_witness :
    (generate false okSink (Obj.str [104, 105])
        ⟨⟨3, [120], 5, some 7⟩, true⟩).pr = ⟨3, [120], 5, some 7⟩ :=
  sxhtml_c1.1 false okSink (Obj.str [104, 105])
    ⟨⟨3, [120], 5, some 7⟩, true⟩ 7 rfl
